import Mathlib

/-!
Verification of `pkg/mimirpb/prealloc_rw2.go` (RW1 -> RW2 write-request
conversion with pooled buffers) against its natural-language specification.

Go slices are modelled by `Buf`: the full backing store (whose length is the
slice capacity) together with the live length.  Stateful code is embedded by
explicit state passing (`Pools` for the process-wide object pools, and the
symbol table threaded through the converters).  Machine integers (`uint32`
references, lengths) are modelled as `Nat`; no arithmetic in the source can
overflow before memory is exhausted, so no explicit wrap-around is modelled.
Go `float64` payloads are only ever copied, never inspected, so they are
modelled as opaque bit patterns.
-/

namespace MimirRW2

/-- Model of a Go slice: `store` is the backing array (its length is the
capacity) and `len` is the live length.  `cap s = store.length`,
`len s = len`, and the live elements are `store.take len`. -/
structure Buf (α : Type) where
  store : List α
  len : Nat
deriving Repr, DecidableEq

namespace Buf

/-- Capacity of the slice: length of the backing array. -/
def cap (b : Buf α) : Nat := b.store.length

/-- The live elements of the slice. -/
def live (b : Buf α) : List α := b.store.take b.len

/-- The nil slice (zero value of a Go slice type). -/
def nil : Buf α := ⟨[], 0⟩

/-- `make([]T, 0, c)`: a zero-length slice over a freshly zeroed backing
array of capacity `c` (`z` is the zero value of the element type). -/
def make (z : α) (c : Nat) : Buf α := ⟨List.replicate c z, 0⟩

/-- Go `append(b, x)`: write in place when there is spare capacity, otherwise
grow the backing array.  Go may over-allocate on growth by an unspecified
factor; the model grows to exactly the needed capacity, which no claim under
verification observes. -/
def append (b : Buf α) (x : α) : Buf α :=
  if b.len < b.store.length then ⟨b.store.set b.len x, b.len + 1⟩
  else ⟨b.store.take b.len ++ [x], b.len + 1⟩

/-- A fully live slice literal such as `[]uint32{a, b}`. -/
def ofList (l : List α) : Buf α := ⟨l, l.length⟩

theorem take_succ_set (l : List α) (n : Nat) (x : α) (h : n < l.length) :
    (l.set n x).take (n + 1) = l.take n ++ [x] := by
  induction l generalizing n with
  | nil => simp at h
  | cons a as ih =>
    cases n with
    | zero => simp
    | succ m =>
      simp only [List.set_cons_succ, List.take_succ_cons, List.cons_append]
      rw [ih m (by simpa using h)]

theorem live_append (b : Buf α) (x : α) : (b.append x).live = b.live ++ [x] := by
  unfold append live
  split
  · next h => simpa using take_succ_set b.store b.len x h
  · next h =>
    have hle : b.store.length ≤ b.len := Nat.le_of_not_lt h
    have hts : b.store.take b.len = b.store := List.take_of_length_le hle
    simp only [hts]
    exact List.take_of_length_le (by simp; omega)

theorem live_make (z : α) (c : Nat) : (make z c).live = [] := by
  simp [make, live]

theorem live_nil : (nil : Buf α).live = [] := rfl

theorem live_ofList (l : List α) : (ofList l).live = l := by
  simp [ofList, live]

theorem cap_make (z : α) (c : Nat) : (make z c).cap = c := by
  simp [make, cap]

theorem live_of_len_zero (b : Buf α) (h : b.len = 0) : b.live = [] := by
  simp [live, h]

end Buf

/-- First-occurrence index of a string in a list (model of the lookups the
symbol table performs on its common and fresh regions). -/
def findIdx : List String → String → Option Nat
  | [], _ => none
  | x :: xs, s => if x = s then some 0 else (findIdx xs s).map (· + 1)

theorem findIdx_cons (a : String) (as : List String) (s : String) :
    findIdx (a :: as) s = if a = s then some 0 else (findIdx as s).map (· + 1) :=
  rfl

theorem findIdx_lt_length {l : List String} {s : String} {i : Nat}
    (h : findIdx l s = some i) : i < l.length := by
  induction l generalizing i with
  | nil => simp [findIdx] at h
  | cons a as ih =>
    rw [findIdx_cons] at h
    by_cases hx : a = s
    · rw [if_pos hx] at h
      have : i = 0 := by simpa using h.symm
      simp [this]
    · rw [if_neg hx, Option.map_eq_some'] at h
      obtain ⟨j, hj, rfl⟩ := h
      have := ih hj
      simp only [List.length_cons]
      omega

theorem findIdx_get {l : List String} {s : String} {i : Nat}
    (h : findIdx l s = some i) : l[i]? = some s := by
  induction l generalizing i with
  | nil => simp [findIdx] at h
  | cons a as ih =>
    rw [findIdx_cons] at h
    by_cases hx : a = s
    · rw [if_pos hx] at h
      have : i = 0 := by simpa using h.symm
      simp [this, hx]
    · rw [if_neg hx, Option.map_eq_some'] at h
      obtain ⟨j, hj, rfl⟩ := h
      simpa using ih hj

theorem findIdx_append_some {l : List String} (l' : List String) {s : String}
    {i : Nat} (h : findIdx l s = some i) : findIdx (l ++ l') s = some i := by
  induction l generalizing i with
  | nil => simp [findIdx] at h
  | cons a as ih =>
    rw [findIdx_cons] at h
    rw [List.cons_append, findIdx_cons]
    by_cases hx : a = s
    · rw [if_pos hx] at h ⊢
      exact h
    · rw [if_neg hx] at h ⊢
      rw [Option.map_eq_some'] at h
      obtain ⟨j, hj, rfl⟩ := h
      rw [ih hj]
      rfl

theorem findIdx_append_none {l : List String} (l' : List String) {s : String}
    (h : findIdx l s = none) :
    findIdx (l ++ l') s = (findIdx l' s).map (· + l.length) := by
  induction l with
  | nil => simp
  | cons a as ih =>
    rw [findIdx_cons] at h
    rw [List.cons_append, findIdx_cons]
    by_cases hx : a = s
    · rw [if_pos hx] at h
      exact absurd h (by simp)
    · rw [if_neg hx] at h ⊢
      rw [Option.map_eq_none'] at h
      rw [ih h]
      cases findIdx l' s with
      | none => rfl
      | some j =>
        simp [List.length_cons]
        omega

theorem findIdx_none {l : List String} {s : String}
    (h : findIdx l s = none) : s ∉ l := by
  induction l with
  | nil => simp
  | cons a as ih =>
    rw [findIdx_cons] at h
    by_cases hx : a = s
    · rw [if_pos hx] at h
      exact absurd h (by simp)
    · rw [if_neg hx, Option.map_eq_none'] at h
      simp only [List.mem_cons, not_or]
      exact ⟨fun hs => hx hs.symm, ih h⟩

/-- Lookup after skipping a region of known length. -/
theorem getElem?_append_plus (l₁ l₂ : List α) (n : Nat) :
    (l₁ ++ l₂)[l₁.length + n]? = l₂[n]? := by
  rw [List.getElem?_append_right (by omega)]
  simp

/-- Modelled from the spec: the symbol table type and its operations
(`Symbolize`, `ConfigureCommonSymbols`, export of the final symbol list) live
in a repository file that is not part of the provided sources; they are
modelled from the specification.  `off` and `common` are set once by
`ConfigureCommonSymbols`; `fresh` collects the per-request strings in
first-assignment order.  A string in the common region keeps its pre-seeded
reference in `[off, off + common.length)`; other strings receive references
after the common region in first-assignment order.  Positions of the exported
list below `off` are padding (empty strings): the spec requires only that
every produced reference be a valid index of the exported list. -/
structure SymbolsTable where
  off : Nat
  common : List String
  fresh : List String
deriving Repr, DecidableEq

namespace SymbolsTable

/-- Modelled from the spec: a freshly constructed (or pool-reset) symbol
table, before `ConfigureCommonSymbols`. -/
def empty : SymbolsTable := ⟨0, [], []⟩

/-- Modelled from the spec: `ConfigureCommonSymbols(offset, commonSymbols)`
pre-seeds the common region at the given offset.  Called at most once, before
any `Symbolize` call. -/
def configureCommonSymbols (t : SymbolsTable) (offset : Nat)
    (commonSymbols : List String) : SymbolsTable :=
  { t with off := offset, common := commonSymbols }

/-- Modelled from the spec: `Symbolize` returns the pre-seeded reference for a
common string, the first-assigned reference for an already-seen string, and
otherwise assigns the next reference and records the string. -/
def Symbolize (t : SymbolsTable) (s : String) : Nat × SymbolsTable :=
  match findIdx t.common s with
  | some i => (t.off + i, t)
  | none =>
    match findIdx t.fresh s with
    | some i => (t.off + t.common.length + i, t)
    | none =>
      (t.off + t.common.length + t.fresh.length,
       ⟨t.off, t.common, t.fresh ++ [s]⟩)

/-- Modelled from the spec: the final ordered symbol list.  The common region
occupies its configured offset range; positions below the offset are padding. -/
def symbolsList (t : SymbolsTable) : List String :=
  List.replicate t.off "" ++ t.common ++ t.fresh

theorem symbolsList_lookup (t : SymbolsTable) (n : Nat) :
    t.symbolsList[t.off + n]? = (t.common ++ t.fresh)[n]? := by
  unfold symbolsList
  rw [List.append_assoc]
  have h := getElem?_append_plus (List.replicate t.off ("" : String))
    (t.common ++ t.fresh) n
  simpa using h

end SymbolsTable

/-- `Extends t₁ t₂`: `t₂` is a later state of the same symbol table within one
conversion (same configuration, fresh region only grown). -/
def Extends (t₁ t₂ : SymbolsTable) : Prop :=
  t₂.off = t₁.off ∧ t₂.common = t₁.common ∧ ∃ l, t₂.fresh = t₁.fresh ++ l

theorem extends_refl (t : SymbolsTable) : Extends t t :=
  ⟨Eq.refl _, Eq.refl _, [], by simp⟩

theorem extends_trans {t₁ t₂ t₃ : SymbolsTable}
    (h₁ : Extends t₁ t₂) (h₂ : Extends t₂ t₃) : Extends t₁ t₃ := by
  obtain ⟨ho₁, hc₁, l₁, hf₁⟩ := h₁
  obtain ⟨ho₂, hc₂, l₂, hf₂⟩ := h₂
  exact ⟨ho₂.trans ho₁, hc₂.trans hc₁, l₁ ++ l₂,
    by rw [hf₂, hf₁, List.append_assoc]⟩

theorem symbolize_common {t : SymbolsTable} {s : String} {i : Nat}
    (h1 : findIdx t.common s = some i) : t.Symbolize s = (t.off + i, t) := by
  unfold SymbolsTable.Symbolize
  rw [h1]

theorem symbolize_fresh {t : SymbolsTable} {s : String} {i : Nat}
    (h1 : findIdx t.common s = none) (h2 : findIdx t.fresh s = some i) :
    t.Symbolize s = (t.off + t.common.length + i, t) := by
  unfold SymbolsTable.Symbolize
  rw [h1, h2]

theorem symbolize_new {t : SymbolsTable} {s : String}
    (h1 : findIdx t.common s = none) (h2 : findIdx t.fresh s = none) :
    t.Symbolize s = (t.off + t.common.length + t.fresh.length,
      ⟨t.off, t.common, t.fresh ++ [s]⟩) := by
  unfold SymbolsTable.Symbolize
  rw [h1, h2]

theorem symbolize_extends (t : SymbolsTable) (s : String) :
    Extends t (t.Symbolize s).2 := by
  cases h1 : findIdx t.common s with
  | some i =>
    rw [symbolize_common h1]
    exact extends_refl t
  | none =>
    cases h2 : findIdx t.fresh s with
    | some i =>
      rw [symbolize_fresh h1 h2]
      exact extends_refl t
    | none =>
      rw [symbolize_new h1 h2]
      exact ⟨rfl, rfl, [s], rfl⟩

/-- Every reference handed out by `Symbolize` dereferences, in any later state
of the table, to the symbolized string. -/
theorem symbolize_lookup (t : SymbolsTable) (s : String) (t₂ : SymbolsTable)
    (hext : Extends (t.Symbolize s).2 t₂) :
    t₂.symbolsList[(t.Symbolize s).1]? = some s := by
  cases h1 : findIdx t.common s with
  | some i =>
    rw [symbolize_common h1] at hext ⊢
    obtain ⟨ho, hc, l, hf⟩ := hext
    have hkey : t₂.symbolsList[t₂.off + i]? = (t₂.common ++ t₂.fresh)[i]? :=
      t₂.symbolsList_lookup i
    rw [ho, hc] at hkey
    rw [hkey]
    rw [List.getElem?_append_left (findIdx_lt_length h1)]
    exact findIdx_get h1
  | none =>
    cases h2 : findIdx t.fresh s with
    | some i =>
      rw [symbolize_fresh h1 h2] at hext ⊢
      obtain ⟨ho, hc, l, hf⟩ := hext
      have hkey : t₂.symbolsList[t₂.off + (t₂.common.length + i)]?
          = (t₂.common ++ t₂.fresh)[t₂.common.length + i]? :=
        t₂.symbolsList_lookup (t₂.common.length + i)
      rw [getElem?_append_plus] at hkey
      rw [ho, hc] at hkey
      have harith : t.off + t.common.length + i
          = t.off + (t.common.length + i) := by omega
      rw [harith, hkey, hf]
      rw [List.getElem?_append_left (findIdx_lt_length h2)]
      exact findIdx_get h2
    | none =>
      rw [symbolize_new h1 h2] at hext ⊢
      obtain ⟨ho, hc, l, hf⟩ := hext
      simp only at ho hc hf
      have hkey : t₂.symbolsList[t₂.off + (t₂.common.length + t.fresh.length)]?
          = (t₂.common ++ t₂.fresh)[t₂.common.length + t.fresh.length]? :=
        t₂.symbolsList_lookup (t₂.common.length + t.fresh.length)
      rw [getElem?_append_plus] at hkey
      rw [ho, hc] at hkey
      have harith : t.off + t.common.length + t.fresh.length
          = t.off + (t.common.length + t.fresh.length) := by omega
      rw [harith, hkey, hf, List.append_assoc]
      have hfin := getElem?_append_plus t.fresh ([s] ++ l) 0
      simpa using hfin

/-- Symbolizing the same string again, at any later state of the table within
the same conversion, returns the same reference. -/
theorem symbolize_stable (t : SymbolsTable) (s : String) (t₂ : SymbolsTable)
    (hext : Extends (t.Symbolize s).2 t₂) :
    (t₂.Symbolize s).1 = (t.Symbolize s).1 := by
  cases h1 : findIdx t.common s with
  | some i =>
    rw [symbolize_common h1] at hext ⊢
    obtain ⟨ho, hc, l, hf⟩ := hext
    have hc1 : findIdx t₂.common s = some i := by rw [hc]; exact h1
    rw [symbolize_common hc1, ho]
  | none =>
    cases h2 : findIdx t.fresh s with
    | some i =>
      rw [symbolize_fresh h1 h2] at hext ⊢
      obtain ⟨ho, hc, l, hf⟩ := hext
      have hc1 : findIdx t₂.common s = none := by rw [hc]; exact h1
      have hf1 : findIdx t₂.fresh s = some i := by
        rw [hf]
        exact findIdx_append_some l h2
      rw [symbolize_fresh hc1 hf1, ho, hc]
    | none =>
      rw [symbolize_new h1 h2] at hext ⊢
      obtain ⟨ho, hc, l, hf⟩ := hext
      simp only at ho hc hf
      have hc1 : findIdx t₂.common s = none := by rw [hc]; exact h1
      have hf1 : findIdx t₂.fresh s = some t.fresh.length := by
        rw [hf, List.append_assoc, findIdx_append_none _ h2]
        rw [show ([s] ++ l) = s :: l from rfl, findIdx_cons, if_pos (Eq.refl s)]
        simp
      rw [symbolize_fresh hc1 hf1, ho, hc]

/-! Data model.  The protobuf-generated struct declarations are repository
code outside the provided sources; their fields are modelled from the spec's
data model and from the field accesses in `prealloc_rw2.go`. -/

/-- Modelled from the spec: opaque bit pattern of a Go `float64` payload; the
conversion only copies such values, never inspects them. -/
abbrev Float64 := Nat

/-- Modelled from the spec: an RW1 label pair (Go `LabelAdapter`). -/
structure LabelAdapter where
  Name : String
  Value : String
deriving Repr, DecidableEq

/-- Modelled from the spec: a sample point; carried through by reference. -/
structure Sample where
  Value : Float64
  TimestampMs : Int
deriving Repr, DecidableEq

/-- Modelled from the spec: an opaque histogram point payload; carried
through by reference. -/
structure Histogram where
  payload : Nat
deriving Repr, DecidableEq

/-- Modelled from the spec: an RW1 exemplar.  The label list is plain (its
nil/empty distinction is not observable through the conversion). -/
structure Exemplar where
  Labels : List LabelAdapter
  Value : Float64
  TimestampMs : Int
deriving Repr, DecidableEq

/-- Modelled from the spec: an RW1 series.  The exemplar slice's nil/empty
distinction is observable (absence preservation), so it is an `Option`. -/
structure TimeSeries where
  Labels : List LabelAdapter
  Samples : List Sample
  Exemplars : Option (List Exemplar)
  Histograms : List Histogram
  CreatedTimestamp : Int
deriving Repr, DecidableEq

/-- Modelled from the spec: an RW1 metric-metadata record (Go
`MetricMetadata`; the `Type` field is renamed `MetricType` because `Type` is
reserved in Lean, and the enum is modelled as `Nat`). -/
structure MetricMetadata where
  MetricType : Nat
  MetricFamilyName : String
  Help : String
  Unit : String
deriving Repr, DecidableEq

/-- Modelled from the spec: an RW2 metadata block (Go `MetadataRW2`). -/
structure MetadataRW2 where
  MetricType : Nat
  HelpRef : Nat
  UnitRef : Nat
deriving Repr, DecidableEq

/-- The zero value `MetadataRW2{}`. -/
def MetadataRW2.zero : MetadataRW2 := ⟨0, 0, 0⟩

/-- Modelled from the spec: an RW2 exemplar (Go `ExemplarRW2`).  Its
reference slice is freshly allocated and never pooled, so it is a plain
list. -/
structure ExemplarRW2 where
  LabelsRefs : List Nat
  Value : Float64
  Timestamp : Int
deriving Repr, DecidableEq

/-- Modelled from the spec: an RW2 series (Go `TimeSeriesRW2`).  `LabelsRefs`
is a `Buf` because its capacity is consulted when it is released back to its
pool. -/
structure TimeSeriesRW2 where
  LabelsRefs : Buf Nat
  Samples : List Sample
  Histograms : List Histogram
  Exemplars : Option (List ExemplarRW2)
  Metadata : MetadataRW2
  CreatedTimestamp : Int
deriving Repr, DecidableEq

/-- The zero value `TimeSeriesRW2{}` (all slices nil). -/
def TimeSeriesRW2.zero : TimeSeriesRW2 :=
  ⟨Buf.nil, [], [], none, MetadataRW2.zero, 0⟩

/-- Modelled from the spec: the write-request batch (Go `WriteRequest`),
restricted to the fields `prealloc_rw2.go` reads or writes.  Metadata entries
are Go pointers, hence `Option`.  `SymbolsRW2` and `TimeseriesRW2` are `Buf`s
because `ReuseRW2` releases them into capacity-bounded pools. -/
structure WriteRequest where
  Timeseries : List TimeSeries
  Metadata : List (Option MetricMetadata)
  Source : Nat
  SkipLabelValidation : Bool
  SkipLabelCountValidation : Bool
  skipUnmarshalingExemplars : Bool
  SymbolsRW2 : Buf String
  TimeseriesRW2 : Buf TimeSeriesRW2
deriving Repr, DecidableEq

/-! Object pools.  Go's `sync.Pool` / `zeropool.Pool` are modelled as lists of
available buffers: `Get` takes the head (or constructs a fresh buffer when
the pool is empty) and `Put` pushes.  Which recycled buffer a concurrent
caller receives is unspecified in Go; the claims under verification quantify
over the pool contents, so the deterministic choice is immaterial. -/

def minPreallocatedTimeseriesRW2 : Nat := 100
def maxPreallocatedTimeseriesRW2 : Nat := 10000
def minPreallocatedLabelsRefs : Nat := 20
def maxPreallocatedLabelsRefs : Nat := 200

/-- Modelled from the spec: retention ceiling of the symbols-slice pool,
whose implementation (`reuseSymbolsSlice`, `symbolsSliceFromPool`) is in a
repository file outside the provided sources; the spec fixes the contract
shape but not this pool's numeric bound. -/
def maxPreallocatedSymbols : Nat := 1000

/-- Modelled from the spec: initial capacity of fresh symbols-slice buffers. -/
def minPreallocatedSymbols : Nat := 100

/-- The three buffer pools the file draws from.  The symbol-table pool is not
modelled: released tables are reset before reuse, so a pooled table is
observably identical to a fresh one. -/
structure Pools where
  labelsRefs : List (Buf Nat)
  timeseriesRW2 : List (Buf TimeSeriesRW2)
  symbols : List (Buf String)
deriving Repr, DecidableEq

def Pools.empty : Pools := ⟨[], [], []⟩

/-- `labelsRefsSliceFromPool`: acquire a `[]uint32` buffer. -/
def labelsRefsSliceFromPool (p : Pools) : Buf Nat × Pools :=
  match p.labelsRefs with
  | [] => (Buf.make 0 minPreallocatedLabelsRefs, p)
  | b :: rest => (b, { p with labelsRefs := rest })

/-- `timeSeriesRW2SliceFromPool`: acquire a `[]TimeSeriesRW2` buffer. -/
def timeSeriesRW2SliceFromPool (p : Pools) : Buf TimeSeriesRW2 × Pools :=
  match p.timeseriesRW2 with
  | [] => (Buf.make TimeSeriesRW2.zero minPreallocatedTimeseriesRW2, p)
  | b :: rest => (b, { p with timeseriesRW2 := rest })

/-- Modelled from the spec: `symbolsSliceFromPool` (outside the provided
sources): acquire a `[]string` buffer. -/
def symbolsSliceFromPool (p : Pools) : Buf String × Pools :=
  match p.symbols with
  | [] => (Buf.make "" minPreallocatedSymbols, p)
  | b :: rest => (b, { p with symbols := rest })

/-- The in-place clearing loop `for i := range s { s[i] = z }`: zero the
first `n` live positions of the backing store. -/
def zeroFirst (z : α) : Nat → List α → List α
  | _, [] => []
  | 0, l => l
  | n + 1, _ :: xs => z :: zeroFirst z n xs

/-- The caller-visible buffer after a release call cleared its live region
(the slice header keeps the caller's length; the pool stores it re-sliced to
length zero). -/
def Buf.cleared (z : α) (b : Buf α) : Buf α := ⟨zeroFirst z b.len b.store, b.len⟩

/-- `reuseLabelsRefsSlice`: release a `[]uint32` buffer.  Returns the
caller-visible buffer after the call (Go mutates the backing array through
the slice argument) together with the new pool contents. -/
def reuseLabelsRefsSlice (s : Buf Nat) (pool : List (Buf Nat)) :
    Buf Nat × List (Buf Nat) :=
  if s.cap = 0 then (s, pool)
  else if maxPreallocatedLabelsRefs < s.cap then (s, pool)
  else (s.cleared 0, { store := (s.cleared 0).store, len := 0 } :: pool)

/-- `reuseTimeSeriesRW2Slice`: release a `[]TimeSeriesRW2` buffer: each live
element's `LabelsRefs` is offered to the labels-refs pool, the element is
overwritten with the zero value, and the buffer itself is pooled if its
capacity is within bounds.  Returns the caller-visible buffer and the new
pools. -/
def reuseTimeSeriesRW2Slice (s : Buf TimeSeriesRW2) (p : Pools) :
    Buf TimeSeriesRW2 × Pools :=
  if s.cap = 0 then (s, p)
  else if maxPreallocatedTimeseriesRW2 < s.cap then (s, p)
  else
    let lp := s.live.foldl
      (fun acc ts => (reuseLabelsRefsSlice ts.LabelsRefs acc).2) p.labelsRefs
    (s.cleared TimeSeriesRW2.zero,
     { p with labelsRefs := lp,
              timeseriesRW2 :=
                { store := (s.cleared TimeSeriesRW2.zero).store, len := 0 }
                  :: p.timeseriesRW2 })

/-- Modelled from the spec: `reuseSymbolsSlice` (outside the provided
sources), with the spec's release contract: clear the live elements, retain
only buffers of positive capacity at most the pool's ceiling. -/
def reuseSymbolsSlice (s : Buf String) (pool : List (Buf String)) :
    Buf String × List (Buf String) :=
  if s.cap = 0 then (s, pool)
  else if maxPreallocatedSymbols < s.cap then (s, pool)
  else (s.cleared "", { store := (s.cleared "").store, len := 0 } :: pool)

/-- `ReuseRW2`: release a whole request's RW2 symbol slice and series slice. -/
def ReuseRW2 (req : WriteRequest) (p : Pools) : Pools :=
  let p1 := { p with symbols := (reuseSymbolsSlice req.SymbolsRW2 p.symbols).2 }
  (reuseTimeSeriesRW2Slice req.TimeseriesRW2 p1).2

/-! The converters, translated from `prealloc_rw2.go`.  The symbol table is
threaded explicitly; symbolization order matches the source's evaluation
order (label name before label value, series labels before that series'
exemplars, all series before metadata, help before unit). -/

def stringsPerLabel : Nat := 2

/-- The inner loop of `FromExemplarsToExemplarsRW2` over one exemplar's
labels: append `Symbolize(name), Symbolize(value)` for each pair. -/
def exemplarRefsLoop : List LabelAdapter → SymbolsTable → List Nat × SymbolsTable
  | [], t => ([], t)
  | l :: rest, t =>
    let s1 := t.Symbolize l.Name
    let s2 := s1.2.Symbolize l.Value
    let tl := exemplarRefsLoop rest s2.2
    (s1.1 :: s2.1 :: tl.1, tl.2)

/-- The loop of `FromExemplarsToExemplarsRW2` over the exemplar list. -/
def exemplarsLoop : List Exemplar → SymbolsTable → List ExemplarRW2 × SymbolsTable
  | [], t => ([], t)
  | ex :: rest, t =>
    let r := exemplarRefsLoop ex.Labels t
    let tl := exemplarsLoop rest r.2
    (⟨r.1, ex.Value, ex.TimestampMs⟩ :: tl.1, tl.2)

/-- `FromExemplarsToExemplarsRW2`: a nil exemplar slice stays nil; otherwise
one converted exemplar per input exemplar, in order. -/
def FromExemplarsToExemplarsRW2 (exemplars : Option (List Exemplar))
    (t : SymbolsTable) : Option (List ExemplarRW2) × SymbolsTable :=
  match exemplars with
  | none => (none, t)
  | some exs =>
    let r := exemplarsLoop exs t
    (some r.1, r.2)

/-- `FromMetricMetadataToMetadataRW2`: a nil metadata pointer maps to the
zero-valued block; otherwise the type is carried over and help and unit are
symbolized (help first). -/
def FromMetricMetadataToMetadataRW2 (metadata : Option MetricMetadata)
    (t : SymbolsTable) : MetadataRW2 × SymbolsTable :=
  match metadata with
  | none => (MetadataRW2.zero, t)
  | some m =>
    let sh := t.Symbolize m.Help
    let su := sh.2.Symbolize m.Unit
    (⟨m.MetricType, sh.1, su.1⟩, su.2)

/-- The per-series reference-buffer acquisition of the conversion loop: take
a pooled buffer and, when its capacity is below `stringsPerLabel`, replace it
with a fresh buffer of capacity `len(ts.Labels) * stringsPerLabel`. -/
def acquireSeriesRefs (labels : List LabelAdapter) (p : Pools) :
    Buf Nat × Pools :=
  let a := labelsRefsSliceFromPool p
  if a.1.cap < stringsPerLabel then
    (Buf.make 0 (labels.length * stringsPerLabel), a.2)
  else a

/-- The inner loop of the series conversion over one series' labels:
`refs = append(refs, Symbolize(name), Symbolize(value))`. -/
def labelsRefsLoop : List LabelAdapter → Buf Nat → SymbolsTable →
    Buf Nat × SymbolsTable
  | [], refs, t => (refs, t)
  | l :: rest, refs, t =>
    let s1 := t.Symbolize l.Name
    let s2 := s1.2.Symbolize l.Value
    labelsRefsLoop rest ((refs.append s1.1).append s2.1) s2.2

/-- The loop of `FromWriteRequestToRW2Request` over `rw1.Timeseries`. -/
def seriesLoop : List TimeSeries → Buf TimeSeriesRW2 → SymbolsTable → Pools →
    Buf TimeSeriesRW2 × SymbolsTable × Pools
  | [], buf, t, p => (buf, t, p)
  | ts :: rest, buf, t, p =>
    let a := acquireSeriesRefs ts.Labels p
    let lr := labelsRefsLoop ts.Labels a.1 t
    let ex := FromExemplarsToExemplarsRW2 ts.Exemplars lr.2
    seriesLoop rest
      (buf.append ⟨lr.1, ts.Samples, ts.Histograms, ex.1, MetadataRW2.zero,
        ts.CreatedTimestamp⟩)
      ex.2 a.2

/-- The loop of `FromWriteRequestToRW2Request` over `rw1.Metadata`,
synthesizing one metadata-only series per entry.  Go dereferences
`meta.MetricFamilyName` without a nil check, after the `"__name__"`
symbolization in the same slice literal has already run; a nil entry
therefore faults, modelled as `none`. -/
def metadataLoop : List (Option MetricMetadata) → Buf TimeSeriesRW2 →
    SymbolsTable → Option (Buf TimeSeriesRW2 × SymbolsTable)
  | [], buf, t => some (buf, t)
  | m :: rest, buf, t =>
    let s1 := t.Symbolize "__name__"
    match m with
    | none => none
    | some meta =>
      let s2 := s1.2.Symbolize meta.MetricFamilyName
      let md := FromMetricMetadataToMetadataRW2 (some meta) s2.2
      metadataLoop rest
        (buf.append ⟨Buf.ofList [s1.1, s2.1], [], [], none, md.1, 0⟩) md.2

/-- Modelled from the spec: `SymbolsPrealloc` (outside the provided sources)
exports the table's final ordered symbol list into the supplied pooled
buffer. -/
def SymbolsTable.SymbolsPrealloc (t : SymbolsTable) (buf : Buf String) :
    Buf String :=
  t.symbolsList.foldl Buf.append buf

/-- Result of `FromWriteRequestToRW2Request`: the Go `(*WriteRequest, error)`
pair, with the nil-metadata run-time fault as a third, separate outcome. -/
inductive ConvResult where
  | ok : Option WriteRequest → ConvResult
  | errAlreadyRW2 : ConvResult
  | panicNilMetadata : ConvResult
deriving Repr, DecidableEq

/-- `FromWriteRequestToRW2Request`, translated from the source.  The pool
state returned on the fault outcome is the state at the fault, except that
buffers already drained from pools and not yet handed back are simply lost,
exactly as in Go (the panic unwinds past them).  The deferred
`reuseSymbolsTable` call is not modelled because the symbol-table pool is
observably identity (tables are reset before reuse). -/
def FromWriteRequestToRW2Request (rw1? : Option WriteRequest)
    (commonSymbols : List String) (offset : Nat) (p : Pools) :
    ConvResult × Pools :=
  match rw1? with
  | none => (.ok none, p)
  | some rw1 =>
    if 0 < rw1.SymbolsRW2.len ∨ 0 < rw1.TimeseriesRW2.len then
      (.errAlreadyRW2, p)
    else
      let t0 := SymbolsTable.empty.configureCommonSymbols offset commonSymbols
      let expTimeseriesCount := rw1.Timeseries.length + rw1.Metadata.length
      let tsp := timeSeriesRW2SliceFromPool p
      let buf1 := if tsp.1.cap < expTimeseriesCount then
          Buf.make TimeSeriesRW2.zero expTimeseriesCount
        else tsp.1
      let sl := seriesLoop rw1.Timeseries buf1 t0 tsp.2
      match metadataLoop rw1.Metadata sl.1 sl.2.1 with
      | none => (.panicNilMetadata, sl.2.2)
      | some bt =>
        let sy := symbolsSliceFromPool sl.2.2
        (.ok (some
          { Timeseries := []
            Metadata := []
            Source := rw1.Source
            SkipLabelValidation := rw1.SkipLabelValidation
            SkipLabelCountValidation := rw1.SkipLabelCountValidation
            skipUnmarshalingExemplars := rw1.skipUnmarshalingExemplars
            SymbolsRW2 := bt.2.SymbolsPrealloc sy.1
            TimeseriesRW2 := bt.1 }), sy.2)

/-- Dereference a flat reference sequence as consecutive (name, value) pairs
through a symbol list; `none` when the sequence has odd length or contains an
out-of-range reference. -/
def derefPairs (symbols : List String) : List Nat → Option (List LabelAdapter)
  | [] => some []
  | [_] => none
  | a :: b :: rest =>
    match symbols[a]?, symbols[b]?, derefPairs symbols rest with
    | some n, some v, some l => some (⟨n, v⟩ :: l)
    | _, _, _ => none

theorem derefPairs_cons {symbols : List String} {a b : Nat} {rest : List Nat}
    {n v : String} {l : List LabelAdapter}
    (ha : symbols[a]? = some n) (hb : symbols[b]? = some v)
    (hrest : derefPairs symbols rest = some l) :
    derefPairs symbols (a :: b :: rest) = some (⟨n, v⟩ :: l) := by
  unfold derefPairs
  rw [ha, hb, hrest]

/-- Every reference in a successfully dereferenced sequence is in range. -/
theorem derefPairs_mem_lt {symbols : List String} :
    ∀ {refs : List Nat} {l : List LabelAdapter},
      derefPairs symbols refs = some l → ∀ r ∈ refs, r < symbols.length
  | [], _, _ => by intro r hr; simp at hr
  | [_], _, h => by simp [derefPairs] at h
  | a :: b :: rest, l, h => by
    intro r hr
    unfold derefPairs at h
    rcases ha : symbols[a]? with _ | n <;> rw [ha] at h
    · simp at h
    rcases hb : symbols[b]? with _ | v <;> rw [hb] at h
    · simp at h
    rcases hrest : derefPairs symbols rest with _ | tl <;> rw [hrest] at h
    · simp at h
    simp only [List.mem_cons] at hr
    rcases hr with rfl | rfl | hr3
    · exact (List.getElem?_eq_some.mp ha).1
    · exact (List.getElem?_eq_some.mp hb).1
    · exact derefPairs_mem_lt hrest r hr3

/-! Well-formedness of pool contents: every buffer sitting in a pool has been
re-sliced to length zero before being put back (`Put(s[:0])` in the source;
`acquire() -> buffer with zero length` in the spec). -/

def PoolsWF (p : Pools) : Prop :=
  (∀ b ∈ p.labelsRefs, b.len = 0) ∧
  (∀ b ∈ p.timeseriesRW2, b.len = 0) ∧
  (∀ b ∈ p.symbols, b.len = 0)

theorem poolsWF_empty : PoolsWF Pools.empty := by
  refine ⟨?_, ?_, ?_⟩ <;> simp [Pools.empty]

theorem labelsRefsSliceFromPool_spec (p : Pools) (h : PoolsWF p) :
    (labelsRefsSliceFromPool p).1.len = 0 ∧ PoolsWF (labelsRefsSliceFromPool p).2 := by
  obtain ⟨h1, h2, h3⟩ := h
  unfold labelsRefsSliceFromPool
  cases hp : p.labelsRefs with
  | nil => exact ⟨rfl, h1, h2, h3⟩
  | cons b rest =>
    refine ⟨h1 b (by rw [hp]; exact List.mem_cons_self b rest), ?_, h2, h3⟩
    intro b' hb'
    exact h1 b' (by rw [hp]; exact List.mem_cons_of_mem b hb')

theorem timeSeriesRW2SliceFromPool_spec (p : Pools) (h : PoolsWF p) :
    (timeSeriesRW2SliceFromPool p).1.len = 0 ∧
      PoolsWF (timeSeriesRW2SliceFromPool p).2 := by
  obtain ⟨h1, h2, h3⟩ := h
  unfold timeSeriesRW2SliceFromPool
  cases hp : p.timeseriesRW2 with
  | nil => exact ⟨rfl, h1, h2, h3⟩
  | cons b rest =>
    refine ⟨h2 b (by rw [hp]; exact List.mem_cons_self b rest), h1, ?_, h3⟩
    intro b' hb'
    exact h2 b' (by rw [hp]; exact List.mem_cons_of_mem b hb')

theorem symbolsSliceFromPool_spec (p : Pools) (h : PoolsWF p) :
    (symbolsSliceFromPool p).1.len = 0 ∧ PoolsWF (symbolsSliceFromPool p).2 := by
  obtain ⟨h1, h2, h3⟩ := h
  unfold symbolsSliceFromPool
  cases hp : p.symbols with
  | nil => exact ⟨rfl, h1, h2, h3⟩
  | cons b rest =>
    refine ⟨h3 b (by rw [hp]; exact List.mem_cons_self b rest), h1, h2, ?_⟩
    intro b' hb'
    exact h3 b' (by rw [hp]; exact List.mem_cons_of_mem b hb')

theorem acquireSeriesRefs_spec (labels : List LabelAdapter) (p : Pools)
    (h : PoolsWF p) :
    (acquireSeriesRefs labels p).1.len = 0 ∧
      PoolsWF (acquireSeriesRefs labels p).2 := by
  have hfp := labelsRefsSliceFromPool_spec p h
  by_cases hc : (labelsRefsSliceFromPool p).1.cap < stringsPerLabel
  · simp only [acquireSeriesRefs, if_pos hc]
    exact ⟨rfl, hfp.2⟩
  · simp only [acquireSeriesRefs, if_neg hc]
    exact hfp

theorem live_foldl_append (l : List α) (b : Buf α) :
    (l.foldl Buf.append b).live = b.live ++ l := by
  induction l generalizing b with
  | nil => simp
  | cons x xs ih =>
    simp only [List.foldl_cons]
    rw [ih, Buf.live_append, List.append_assoc]
    rfl

theorem symbolsPrealloc_live (t : SymbolsTable) (buf : Buf String)
    (h : buf.len = 0) : (t.SymbolsPrealloc buf).live = t.symbolsList := by
  unfold SymbolsTable.SymbolsPrealloc
  rw [live_foldl_append, Buf.live_of_len_zero buf h]
  simp

/-! Per-element correctness predicates for the conversion output, each stated
relative to a symbol-table state: the dereference facts hold in every later
state of that table, so they transport to the table's final state. -/

/-- Correctness of one converted exemplar with respect to its source. -/
def ExOK (t : SymbolsTable) (ex : Exemplar) (out : ExemplarRW2) : Prop :=
  out.Value = ex.Value ∧ out.Timestamp = ex.TimestampMs ∧
  out.LabelsRefs.length = ex.Labels.length * 2 ∧
  ∀ t₂, Extends t t₂ → derefPairs t₂.symbolsList out.LabelsRefs = some ex.Labels

theorem ExOK_mono {t t' : SymbolsTable} (hext : Extends t t') {ex : Exemplar}
    {out : ExemplarRW2} (h : ExOK t ex out) : ExOK t' ex out :=
  ⟨h.1, h.2.1, h.2.2.1, fun t₂ h₂ => h.2.2.2 t₂ (extends_trans hext h₂)⟩

/-- Correctness of a converted exemplar slice: nil stays nil, present stays
present with pointwise-correct conversion. -/
def ExsOK (t : SymbolsTable) :
    Option (List Exemplar) → Option (List ExemplarRW2) → Prop
  | none, none => True
  | some exs, some outs => List.Forall₂ (ExOK t) exs outs
  | _, _ => False

theorem ExsOK_mono {t t' : SymbolsTable} (hext : Extends t t')
    {exs : Option (List Exemplar)} {outs : Option (List ExemplarRW2)}
    (h : ExsOK t exs outs) : ExsOK t' exs outs := by
  cases exs with
  | none => cases outs with
    | none => trivial
    | some _ => exact absurd h (by simp [ExsOK])
  | some l => cases outs with
    | none => exact absurd h (by simp [ExsOK])
    | some l' => exact List.Forall₂.imp (fun a b hab => ExOK_mono hext hab) h

/-- Correctness of one converted (real) series with respect to its source. -/
def SeriesOK (t : SymbolsTable) (ts : TimeSeries) (out : TimeSeriesRW2) : Prop :=
  out.LabelsRefs.live.length = ts.Labels.length * 2 ∧
  (∀ t₂, Extends t t₂ →
    derefPairs t₂.symbolsList out.LabelsRefs.live = some ts.Labels) ∧
  out.Samples = ts.Samples ∧
  out.Histograms = ts.Histograms ∧
  ExsOK t ts.Exemplars out.Exemplars ∧
  out.Metadata = MetadataRW2.zero ∧
  out.CreatedTimestamp = ts.CreatedTimestamp

theorem SeriesOK_mono {t t' : SymbolsTable} (hext : Extends t t')
    {ts : TimeSeries} {out : TimeSeriesRW2} (h : SeriesOK t ts out) :
    SeriesOK t' ts out :=
  ⟨h.1, fun t₂ h₂ => h.2.1 t₂ (extends_trans hext h₂), h.2.2.1, h.2.2.2.1,
   ExsOK_mono hext h.2.2.2.2.1, h.2.2.2.2.2.1, h.2.2.2.2.2.2⟩

/-- Correctness of one synthetic metadata series with respect to its source
metadata entry. -/
def SynthOK (t : SymbolsTable) (m? : Option MetricMetadata)
    (out : TimeSeriesRW2) : Prop :=
  ∃ meta, m? = some meta ∧
    out.LabelsRefs.live.length = 2 ∧
    (∀ t₂, Extends t t₂ → derefPairs t₂.symbolsList out.LabelsRefs.live
      = some [⟨"__name__", meta.MetricFamilyName⟩]) ∧
    out.Samples = [] ∧ out.Histograms = [] ∧ out.Exemplars = none ∧
    out.CreatedTimestamp = 0 ∧
    out.Metadata.MetricType = meta.MetricType ∧
    (∀ t₂, Extends t t₂ →
      t₂.symbolsList[out.Metadata.HelpRef]? = some meta.Help ∧
      t₂.symbolsList[out.Metadata.UnitRef]? = some meta.Unit)

theorem SynthOK_mono {t t' : SymbolsTable} (hext : Extends t t')
    {m? : Option MetricMetadata} {out : TimeSeriesRW2}
    (h : SynthOK t m? out) : SynthOK t' m? out := by
  obtain ⟨meta, hm, h1, h2, h3, h4, h5, h6, h7, h8⟩ := h
  exact ⟨meta, hm, h1, fun t₂ h₂ => h2 t₂ (extends_trans hext h₂),
    h3, h4, h5, h6, h7, fun t₂ h₂ => h8 t₂ (extends_trans hext h₂)⟩

/-! Loop invariants of the converters. -/

theorem exemplarRefsLoop_spec (labels : List LabelAdapter) (t : SymbolsTable) :
    Extends t (exemplarRefsLoop labels t).2 ∧
    (exemplarRefsLoop labels t).1.length = labels.length * 2 ∧
    ∀ t₂, Extends (exemplarRefsLoop labels t).2 t₂ →
      derefPairs t₂.symbolsList (exemplarRefsLoop labels t).1 = some labels := by
  induction labels generalizing t with
  | nil => exact ⟨extends_refl t, rfl, fun t₂ _ => rfl⟩
  | cons l rest ih =>
    have hstep : exemplarRefsLoop (l :: rest) t =
        ((t.Symbolize l.Name).1 :: ((t.Symbolize l.Name).2.Symbolize l.Value).1 ::
          (exemplarRefsLoop rest ((t.Symbolize l.Name).2.Symbolize l.Value).2).1,
         (exemplarRefsLoop rest ((t.Symbolize l.Name).2.Symbolize l.Value).2).2) :=
      rfl
    obtain ⟨ihExt, ihLen, ihDeref⟩ :=
      ih ((t.Symbolize l.Name).2.Symbolize l.Value).2
    rw [hstep]
    refine ⟨?_, ?_, ?_⟩
    · exact extends_trans (symbolize_extends t l.Name)
        (extends_trans (symbolize_extends _ l.Value) ihExt)
    · simp only [List.length_cons, ihLen]
      omega
    · intro t₂ hext
      have hext2 : Extends ((t.Symbolize l.Name).2.Symbolize l.Value).2 t₂ :=
        extends_trans ihExt hext
      have hext1 : Extends (t.Symbolize l.Name).2 t₂ :=
        extends_trans (symbolize_extends _ l.Value) hext2
      have h1 := symbolize_lookup t l.Name t₂ hext1
      have h2 := symbolize_lookup (t.Symbolize l.Name).2 l.Value t₂ hext2
      have h3 := ihDeref t₂ hext
      rw [derefPairs_cons h1 h2 h3]

theorem exemplarsLoop_spec (exs : List Exemplar) (t : SymbolsTable) :
    Extends t (exemplarsLoop exs t).2 ∧
    List.Forall₂ (ExOK (exemplarsLoop exs t).2) exs (exemplarsLoop exs t).1 := by
  induction exs generalizing t with
  | nil => exact ⟨extends_refl t, List.Forall₂.nil⟩
  | cons ex rest ih =>
    have hstep : exemplarsLoop (ex :: rest) t =
        (⟨(exemplarRefsLoop ex.Labels t).1, ex.Value, ex.TimestampMs⟩ ::
           (exemplarsLoop rest (exemplarRefsLoop ex.Labels t).2).1,
         (exemplarsLoop rest (exemplarRefsLoop ex.Labels t).2).2) := rfl
    obtain ⟨rExt, rLen, rDeref⟩ := exemplarRefsLoop_spec ex.Labels t
    obtain ⟨ihExt, ihAll⟩ := ih (exemplarRefsLoop ex.Labels t).2
    rw [hstep]
    refine ⟨extends_trans rExt ihExt, List.Forall₂.cons ?_ ihAll⟩
    exact ⟨rfl, rfl, rLen, fun t₂ h₂ => rDeref t₂ (extends_trans ihExt h₂)⟩

theorem fromExemplars_spec (exemplars : Option (List Exemplar))
    (t : SymbolsTable) :
    Extends t (FromExemplarsToExemplarsRW2 exemplars t).2 ∧
    ExsOK (FromExemplarsToExemplarsRW2 exemplars t).2 exemplars
      (FromExemplarsToExemplarsRW2 exemplars t).1 := by
  cases exemplars with
  | none => exact ⟨extends_refl t, trivial⟩
  | some exs => exact exemplarsLoop_spec exs t

theorem labelsRefsLoop_spec (labels : List LabelAdapter) (refs : Buf Nat)
    (t : SymbolsTable) :
    Extends t (labelsRefsLoop labels refs t).2 ∧
    ∃ δ : List Nat,
      (labelsRefsLoop labels refs t).1.live = refs.live ++ δ ∧
      δ.length = labels.length * 2 ∧
      ∀ t₂, Extends (labelsRefsLoop labels refs t).2 t₂ →
        derefPairs t₂.symbolsList δ = some labels := by
  induction labels generalizing refs t with
  | nil => exact ⟨extends_refl t, [], by simp [labelsRefsLoop], rfl, fun t₂ _ => rfl⟩
  | cons l rest ih =>
    have hstep : labelsRefsLoop (l :: rest) refs t =
        labelsRefsLoop rest
          ((refs.append (t.Symbolize l.Name).1).append
            ((t.Symbolize l.Name).2.Symbolize l.Value).1)
          ((t.Symbolize l.Name).2.Symbolize l.Value).2 := rfl
    rw [hstep]
    obtain ⟨ihExt, δ, hlive, hlen, hderef⟩ :=
      ih ((refs.append (t.Symbolize l.Name).1).append
            ((t.Symbolize l.Name).2.Symbolize l.Value).1)
        ((t.Symbolize l.Name).2.Symbolize l.Value).2
    refine ⟨extends_trans (symbolize_extends t l.Name)
        (extends_trans (symbolize_extends _ l.Value) ihExt),
      (t.Symbolize l.Name).1 :: ((t.Symbolize l.Name).2.Symbolize l.Value).1 :: δ,
      ?_, ?_, ?_⟩
    · rw [hlive, Buf.live_append, Buf.live_append]
      simp
    · simp only [List.length_cons, hlen]
      omega
    · intro t₂ hext
      have hext2 : Extends ((t.Symbolize l.Name).2.Symbolize l.Value).2 t₂ :=
        extends_trans ihExt hext
      have hext1 : Extends (t.Symbolize l.Name).2 t₂ :=
        extends_trans (symbolize_extends _ l.Value) hext2
      exact derefPairs_cons (symbolize_lookup t l.Name t₂ hext1)
        (symbolize_lookup (t.Symbolize l.Name).2 l.Value t₂ hext2)
        (hderef t₂ hext)

theorem seriesLoop_spec (l : List TimeSeries) (buf : Buf TimeSeriesRW2)
    (t : SymbolsTable) (p : Pools) :
    PoolsWF p →
    Extends t (seriesLoop l buf t p).2.1 ∧
    PoolsWF (seriesLoop l buf t p).2.2 ∧
    ∃ outs, (seriesLoop l buf t p).1.live = buf.live ++ outs ∧
      List.Forall₂ (SeriesOK (seriesLoop l buf t p).2.1) l outs := by
  induction l generalizing buf t p with
  | nil =>
    intro hWF
    exact ⟨extends_refl t, hWF, [], by simp [seriesLoop], List.Forall₂.nil⟩
  | cons ts rest ih =>
    intro hWF
    have hstep : seriesLoop (ts :: rest) buf t p =
        seriesLoop rest
          (buf.append
            ⟨(labelsRefsLoop ts.Labels (acquireSeriesRefs ts.Labels p).1 t).1,
             ts.Samples, ts.Histograms,
             (FromExemplarsToExemplarsRW2 ts.Exemplars
               (labelsRefsLoop ts.Labels (acquireSeriesRefs ts.Labels p).1 t).2).1,
             MetadataRW2.zero, ts.CreatedTimestamp⟩)
          (FromExemplarsToExemplarsRW2 ts.Exemplars
            (labelsRefsLoop ts.Labels (acquireSeriesRefs ts.Labels p).1 t).2).2
          (acquireSeriesRefs ts.Labels p).2 := rfl
    rw [hstep]
    obtain ⟨ha0, haWF⟩ := acquireSeriesRefs_spec ts.Labels p hWF
    obtain ⟨lrExt, δ, hδlive, hδlen, hδderef⟩ :=
      labelsRefsLoop_spec ts.Labels (acquireSeriesRefs ts.Labels p).1 t
    obtain ⟨exExt, exOK⟩ := fromExemplars_spec ts.Exemplars
      (labelsRefsLoop ts.Labels (acquireSeriesRefs ts.Labels p).1 t).2
    obtain ⟨ihExt, ihWF, outs, hOlive, hOAll⟩ :=
      ih (buf.append
            ⟨(labelsRefsLoop ts.Labels (acquireSeriesRefs ts.Labels p).1 t).1,
             ts.Samples, ts.Histograms,
             (FromExemplarsToExemplarsRW2 ts.Exemplars
               (labelsRefsLoop ts.Labels (acquireSeriesRefs ts.Labels p).1 t).2).1,
             MetadataRW2.zero, ts.CreatedTimestamp⟩)
        (FromExemplarsToExemplarsRW2 ts.Exemplars
          (labelsRefsLoop ts.Labels (acquireSeriesRefs ts.Labels p).1 t).2).2
        (acquireSeriesRefs ts.Labels p).2 haWF
    have hreflive :
        (labelsRefsLoop ts.Labels (acquireSeriesRefs ts.Labels p).1 t).1.live
          = δ := by
      rw [hδlive, Buf.live_of_len_zero _ ha0]
      simp
    refine ⟨extends_trans lrExt (extends_trans exExt ihExt), ihWF,
      ⟨(labelsRefsLoop ts.Labels (acquireSeriesRefs ts.Labels p).1 t).1,
        ts.Samples, ts.Histograms,
        (FromExemplarsToExemplarsRW2 ts.Exemplars
          (labelsRefsLoop ts.Labels (acquireSeriesRefs ts.Labels p).1 t).2).1,
        MetadataRW2.zero, ts.CreatedTimestamp⟩ :: outs,
      ?_, List.Forall₂.cons ?_ hOAll⟩
    · rw [hOlive, Buf.live_append]
      simp
    · refine ⟨?_, ?_, rfl, rfl, ?_, rfl, rfl⟩
      · simpa [hreflive] using hδlen
      · intro t₂ h₂
        rw [hreflive]
        exact hδderef t₂ (extends_trans exExt (extends_trans ihExt h₂))
      · exact ExsOK_mono ihExt exOK

theorem fromMetadata_spec (meta : MetricMetadata) (t : SymbolsTable) :
    Extends t (FromMetricMetadataToMetadataRW2 (some meta) t).2 ∧
    (FromMetricMetadataToMetadataRW2 (some meta) t).1.MetricType
      = meta.MetricType ∧
    ∀ t₂, Extends (FromMetricMetadataToMetadataRW2 (some meta) t).2 t₂ →
      t₂.symbolsList[(FromMetricMetadataToMetadataRW2 (some meta) t).1.HelpRef]?
          = some meta.Help ∧
      t₂.symbolsList[(FromMetricMetadataToMetadataRW2 (some meta) t).1.UnitRef]?
          = some meta.Unit := by
  have hstep : FromMetricMetadataToMetadataRW2 (some meta) t =
      (⟨meta.MetricType, (t.Symbolize meta.Help).1,
        ((t.Symbolize meta.Help).2.Symbolize meta.Unit).1⟩,
       ((t.Symbolize meta.Help).2.Symbolize meta.Unit).2) := rfl
  rw [hstep]
  refine ⟨extends_trans (symbolize_extends t meta.Help)
      (symbolize_extends _ meta.Unit), rfl, ?_⟩
  intro t₂ h₂
  exact ⟨symbolize_lookup t meta.Help t₂
      (extends_trans (symbolize_extends _ meta.Unit) h₂),
    symbolize_lookup (t.Symbolize meta.Help).2 meta.Unit t₂ h₂⟩

theorem metadataLoop_spec (metas : List (Option MetricMetadata))
    (buf : Buf TimeSeriesRW2) (t : SymbolsTable) :
    (∀ m ∈ metas, m ≠ none) →
    ∃ buf' t', metadataLoop metas buf t = some (buf', t') ∧
      Extends t t' ∧
      ∃ outs, buf'.live = buf.live ++ outs ∧
        List.Forall₂ (SynthOK t') metas outs := by
  induction metas generalizing buf t with
  | nil =>
    intro _
    exact ⟨buf, t, rfl, extends_refl t, [], by simp, List.Forall₂.nil⟩
  | cons m rest ih =>
    intro hnn
    cases m with
    | none => exact absurd rfl (hnn none (List.mem_cons_self _ _))
    | some meta =>
      have hstep : metadataLoop (some meta :: rest) buf t =
          metadataLoop rest
            (buf.append ⟨Buf.ofList [(t.Symbolize "__name__").1,
                ((t.Symbolize "__name__").2.Symbolize meta.MetricFamilyName).1],
              [], [], none,
              (FromMetricMetadataToMetadataRW2 (some meta)
                ((t.Symbolize "__name__").2.Symbolize meta.MetricFamilyName).2).1,
              0⟩)
            (FromMetricMetadataToMetadataRW2 (some meta)
              ((t.Symbolize "__name__").2.Symbolize meta.MetricFamilyName).2).2 :=
        rfl
    -- names for the intermediate tables
      obtain ⟨mdExt, mdType, mdRefs⟩ := fromMetadata_spec meta
        ((t.Symbolize "__name__").2.Symbolize meta.MetricFamilyName).2
      obtain ⟨buf', t', heq, hExt, outs, holive, hoAll⟩ :=
        ih (buf.append ⟨Buf.ofList [(t.Symbolize "__name__").1,
              ((t.Symbolize "__name__").2.Symbolize meta.MetricFamilyName).1],
            [], [], none,
            (FromMetricMetadataToMetadataRW2 (some meta)
              ((t.Symbolize "__name__").2.Symbolize meta.MetricFamilyName).2).1,
            0⟩)
          (FromMetricMetadataToMetadataRW2 (some meta)
            ((t.Symbolize "__name__").2.Symbolize meta.MetricFamilyName).2).2
          (fun m' hm' => hnn m' (List.mem_cons_of_mem _ hm'))
      refine ⟨buf', t', hstep.trans heq,
        extends_trans (symbolize_extends t "__name__")
          (extends_trans (symbolize_extends _ meta.MetricFamilyName)
            (extends_trans mdExt hExt)),
        ⟨Buf.ofList [(t.Symbolize "__name__").1,
            ((t.Symbolize "__name__").2.Symbolize meta.MetricFamilyName).1],
          [], [], none,
          (FromMetricMetadataToMetadataRW2 (some meta)
            ((t.Symbolize "__name__").2.Symbolize meta.MetricFamilyName).2).1,
          0⟩ :: outs,
        ?_, List.Forall₂.cons ?_ hoAll⟩
      · rw [holive, Buf.live_append]
        simp
      · refine ⟨meta, rfl, by rw [Buf.live_ofList]; rfl, ?_, rfl, rfl, rfl, rfl,
          mdType, ?_⟩
        · intro t₂ h₂
          rw [Buf.live_ofList]
          have hext2 : Extends
              ((t.Symbolize "__name__").2.Symbolize meta.MetricFamilyName).2 t₂ :=
            extends_trans mdExt (extends_trans hExt h₂)
          have hext1 : Extends (t.Symbolize "__name__").2 t₂ :=
            extends_trans (symbolize_extends _ meta.MetricFamilyName) hext2
          exact derefPairs_cons (symbolize_lookup t "__name__" t₂ hext1)
            (symbolize_lookup (t.Symbolize "__name__").2 meta.MetricFamilyName
              t₂ hext2) rfl
        · intro t₂ h₂
          exact mdRefs t₂ (extends_trans hExt h₂)

/-! Evaluation lemmas for the top-level conversion. -/

theorem metadataLoop_none_of_mem :
    ∀ (metas : List (Option MetricMetadata)) (buf : Buf TimeSeriesRW2)
      (t : SymbolsTable), (∃ m ∈ metas, m = none) →
      metadataLoop metas buf t = none := by
  intro metas
  induction metas with
  | nil =>
    intro buf t h
    obtain ⟨m, hm, _⟩ := h
    simp at hm
  | cons m rest ih =>
    intro buf t h
    cases m with
    | none => rfl
    | some meta =>
      obtain ⟨m', hm', hmeq⟩ := h
      rcases List.mem_cons.mp hm' with rfl | hm'rest
      · simp at hmeq
      · have hstep : metadataLoop (some meta :: rest) buf t =
            metadataLoop rest
              (buf.append ⟨Buf.ofList [(t.Symbolize "__name__").1,
                  ((t.Symbolize "__name__").2.Symbolize meta.MetricFamilyName).1],
                [], [], none,
                (FromMetricMetadataToMetadataRW2 (some meta)
                  ((t.Symbolize "__name__").2.Symbolize
                    meta.MetricFamilyName).2).1, 0⟩)
              (FromMetricMetadataToMetadataRW2 (some meta)
                ((t.Symbolize "__name__").2.Symbolize
                  meta.MetricFamilyName).2).2 := rfl
        rw [hstep]
        exact ih _ _ ⟨m', hm'rest, hmeq⟩

theorem conv_eval_err (rw1 : WriteRequest) (cs : List String) (off : Nat)
    (p : Pools) (hcond : 0 < rw1.SymbolsRW2.len ∨ 0 < rw1.TimeseriesRW2.len) :
    FromWriteRequestToRW2Request (some rw1) cs off p = (.errAlreadyRW2, p) := by
  simp only [FromWriteRequestToRW2Request]
  rw [if_pos hcond]

theorem conv_eval_ok (rw1 : WriteRequest) (cs : List String) (off : Nat)
    (p : Pools) (buf' : Buf TimeSeriesRW2) (t' : SymbolsTable)
    (hpass : ¬(0 < rw1.SymbolsRW2.len ∨ 0 < rw1.TimeseriesRW2.len))
    (hml : metadataLoop rw1.Metadata
        (seriesLoop rw1.Timeseries
          (if (timeSeriesRW2SliceFromPool p).1.cap
              < rw1.Timeseries.length + rw1.Metadata.length then
            Buf.make TimeSeriesRW2.zero
              (rw1.Timeseries.length + rw1.Metadata.length)
          else (timeSeriesRW2SliceFromPool p).1)
          (SymbolsTable.empty.configureCommonSymbols off cs)
          (timeSeriesRW2SliceFromPool p).2).1
        (seriesLoop rw1.Timeseries
          (if (timeSeriesRW2SliceFromPool p).1.cap
              < rw1.Timeseries.length + rw1.Metadata.length then
            Buf.make TimeSeriesRW2.zero
              (rw1.Timeseries.length + rw1.Metadata.length)
          else (timeSeriesRW2SliceFromPool p).1)
          (SymbolsTable.empty.configureCommonSymbols off cs)
          (timeSeriesRW2SliceFromPool p).2).2.1 = some (buf', t')) :
    FromWriteRequestToRW2Request (some rw1) cs off p =
      (.ok (some
        { Timeseries := []
          Metadata := []
          Source := rw1.Source
          SkipLabelValidation := rw1.SkipLabelValidation
          SkipLabelCountValidation := rw1.SkipLabelCountValidation
          skipUnmarshalingExemplars := rw1.skipUnmarshalingExemplars
          SymbolsRW2 := t'.SymbolsPrealloc
            (symbolsSliceFromPool
              (seriesLoop rw1.Timeseries
                (if (timeSeriesRW2SliceFromPool p).1.cap
                    < rw1.Timeseries.length + rw1.Metadata.length then
                  Buf.make TimeSeriesRW2.zero
                    (rw1.Timeseries.length + rw1.Metadata.length)
                else (timeSeriesRW2SliceFromPool p).1)
                (SymbolsTable.empty.configureCommonSymbols off cs)
                (timeSeriesRW2SliceFromPool p).2).2.2).1
          TimeseriesRW2 := buf' }),
       (symbolsSliceFromPool
         (seriesLoop rw1.Timeseries
           (if (timeSeriesRW2SliceFromPool p).1.cap
               < rw1.Timeseries.length + rw1.Metadata.length then
             Buf.make TimeSeriesRW2.zero
               (rw1.Timeseries.length + rw1.Metadata.length)
           else (timeSeriesRW2SliceFromPool p).1)
           (SymbolsTable.empty.configureCommonSymbols off cs)
           (timeSeriesRW2SliceFromPool p).2).2.2).2) := by
  simp only [FromWriteRequestToRW2Request]
  rw [if_neg hpass]
  simp only [hml]

theorem conv_eval_panic (rw1 : WriteRequest) (cs : List String) (off : Nat)
    (p : Pools)
    (hpass : ¬(0 < rw1.SymbolsRW2.len ∨ 0 < rw1.TimeseriesRW2.len))
    (hml : metadataLoop rw1.Metadata
        (seriesLoop rw1.Timeseries
          (if (timeSeriesRW2SliceFromPool p).1.cap
              < rw1.Timeseries.length + rw1.Metadata.length then
            Buf.make TimeSeriesRW2.zero
              (rw1.Timeseries.length + rw1.Metadata.length)
          else (timeSeriesRW2SliceFromPool p).1)
          (SymbolsTable.empty.configureCommonSymbols off cs)
          (timeSeriesRW2SliceFromPool p).2).1
        (seriesLoop rw1.Timeseries
          (if (timeSeriesRW2SliceFromPool p).1.cap
              < rw1.Timeseries.length + rw1.Metadata.length then
            Buf.make TimeSeriesRW2.zero
              (rw1.Timeseries.length + rw1.Metadata.length)
          else (timeSeriesRW2SliceFromPool p).1)
          (SymbolsTable.empty.configureCommonSymbols off cs)
          (timeSeriesRW2SliceFromPool p).2).2.1 = none) :
    FromWriteRequestToRW2Request (some rw1) cs off p =
      (.panicNilMetadata,
       (seriesLoop rw1.Timeseries
         (if (timeSeriesRW2SliceFromPool p).1.cap
             < rw1.Timeseries.length + rw1.Metadata.length then
           Buf.make TimeSeriesRW2.zero
             (rw1.Timeseries.length + rw1.Metadata.length)
         else (timeSeriesRW2SliceFromPool p).1)
         (SymbolsTable.empty.configureCommonSymbols off cs)
         (timeSeriesRW2SliceFromPool p).2).2.2) := by
  simp only [FromWriteRequestToRW2Request]
  rw [if_neg hpass]
  simp only [hml]

/-- Master correctness lemma for a successful conversion, from input-side
hypotheses. -/
theorem conv_ok_spec (rw1 : WriteRequest) (cs : List String) (off : Nat)
    (p : Pools) (hWF : PoolsWF p)
    (hpass : ¬(0 < rw1.SymbolsRW2.len ∨ 0 < rw1.TimeseriesRW2.len))
    (hnn : ∀ m ∈ rw1.Metadata, m ≠ none) :
    ∃ rw2 p' t2,
      FromWriteRequestToRW2Request (some rw1) cs off p = (.ok (some rw2), p') ∧
      rw2.SymbolsRW2.live = t2.symbolsList ∧
      (∃ realOuts synthOuts,
        rw2.TimeseriesRW2.live = realOuts ++ synthOuts ∧
        List.Forall₂ (SeriesOK t2) rw1.Timeseries realOuts ∧
        List.Forall₂ (SynthOK t2) rw1.Metadata synthOuts) ∧
      rw2.Source = rw1.Source ∧
      rw2.SkipLabelValidation = rw1.SkipLabelValidation ∧
      rw2.SkipLabelCountValidation = rw1.SkipLabelCountValidation ∧
      rw2.skipUnmarshalingExemplars = rw1.skipUnmarshalingExemplars ∧
      rw2.Timeseries = [] ∧ rw2.Metadata = [] := by
  obtain ⟨hb0, hWF1⟩ := timeSeriesRW2SliceFromPool_spec p hWF
  have hbuf1len : (if (timeSeriesRW2SliceFromPool p).1.cap
      < rw1.Timeseries.length + rw1.Metadata.length then
        Buf.make TimeSeriesRW2.zero (rw1.Timeseries.length + rw1.Metadata.length)
      else (timeSeriesRW2SliceFromPool p).1).len = 0 := by
    split
    · rfl
    · exact hb0
  obtain ⟨slExt, slWF, routs, hrlive, hrAll⟩ :=
    seriesLoop_spec rw1.Timeseries
      (if (timeSeriesRW2SliceFromPool p).1.cap
          < rw1.Timeseries.length + rw1.Metadata.length then
        Buf.make TimeSeriesRW2.zero (rw1.Timeseries.length + rw1.Metadata.length)
      else (timeSeriesRW2SliceFromPool p).1)
      (SymbolsTable.empty.configureCommonSymbols off cs)
      (timeSeriesRW2SliceFromPool p).2 hWF1
  obtain ⟨buf', t', hml, hmlExt, souts, hslive, hsAll⟩ :=
    metadataLoop_spec rw1.Metadata _ _ hnn
  obtain ⟨hsy0, _⟩ := symbolsSliceFromPool_spec _ slWF
  refine ⟨_, _, t', conv_eval_ok rw1 cs off p buf' t' hpass hml, ?_, ?_,
    rfl, rfl, rfl, rfl, rfl, rfl⟩
  · exact symbolsPrealloc_live t' _ hsy0
  · refine ⟨routs, souts, ?_, ?_, hsAll⟩
    · rw [hslive, hrlive, Buf.live_of_len_zero _ hbuf1len]
      simp
    · exact List.Forall₂.imp (fun a b hab => SeriesOK_mono hmlExt hab) hrAll

/-- Inversion: a successful conversion implies the input passed the
already-converted check and had no nil metadata entry. -/
theorem conv_ok_inversion (rw1 : WriteRequest) (cs : List String) (off : Nat)
    (p : Pools) (rw2 : WriteRequest) (p' : Pools)
    (hconv : FromWriteRequestToRW2Request (some rw1) cs off p
      = (.ok (some rw2), p')) :
    ¬(0 < rw1.SymbolsRW2.len ∨ 0 < rw1.TimeseriesRW2.len) ∧
    ∀ m ∈ rw1.Metadata, m ≠ none := by
  have hpass : ¬(0 < rw1.SymbolsRW2.len ∨ 0 < rw1.TimeseriesRW2.len) := by
    intro hcond
    rw [conv_eval_err rw1 cs off p hcond] at hconv
    simp at hconv
  refine ⟨hpass, ?_⟩
  intro m hm hmeq
  subst hmeq
  have hml := metadataLoop_none_of_mem rw1.Metadata
    (seriesLoop rw1.Timeseries
      (if (timeSeriesRW2SliceFromPool p).1.cap
          < rw1.Timeseries.length + rw1.Metadata.length then
        Buf.make TimeSeriesRW2.zero (rw1.Timeseries.length + rw1.Metadata.length)
      else (timeSeriesRW2SliceFromPool p).1)
      (SymbolsTable.empty.configureCommonSymbols off cs)
      (timeSeriesRW2SliceFromPool p).2).1
    (seriesLoop rw1.Timeseries
      (if (timeSeriesRW2SliceFromPool p).1.cap
          < rw1.Timeseries.length + rw1.Metadata.length then
        Buf.make TimeSeriesRW2.zero (rw1.Timeseries.length + rw1.Metadata.length)
      else (timeSeriesRW2SliceFromPool p).1)
      (SymbolsTable.empty.configureCommonSymbols off cs)
      (timeSeriesRW2SliceFromPool p).2).2.1 ⟨none, hm, rfl⟩
  rw [conv_eval_panic rw1 cs off p hpass hml] at hconv
  simp at hconv

/-- Master correctness lemma, keyed on the observed successful result. -/
theorem conv_ok_of_eq (rw1 : WriteRequest) (cs : List String) (off : Nat)
    (p : Pools) (rw2 : WriteRequest) (p' : Pools) (hWF : PoolsWF p)
    (hconv : FromWriteRequestToRW2Request (some rw1) cs off p
      = (.ok (some rw2), p')) :
    ∃ t2,
      rw2.SymbolsRW2.live = t2.symbolsList ∧
      (∃ realOuts synthOuts,
        rw2.TimeseriesRW2.live = realOuts ++ synthOuts ∧
        List.Forall₂ (SeriesOK t2) rw1.Timeseries realOuts ∧
        List.Forall₂ (SynthOK t2) rw1.Metadata synthOuts) ∧
      rw2.Source = rw1.Source ∧
      rw2.SkipLabelValidation = rw1.SkipLabelValidation ∧
      rw2.SkipLabelCountValidation = rw1.SkipLabelCountValidation ∧
      rw2.skipUnmarshalingExemplars = rw1.skipUnmarshalingExemplars ∧
      rw2.Timeseries = [] ∧ rw2.Metadata = [] := by
  obtain ⟨hpass, hnn⟩ := conv_ok_inversion rw1 cs off p rw2 p' hconv
  obtain ⟨rw2', p'', t2, heval, hsyms, houts, h1, h2, h3, h4, h5, h6⟩ :=
    conv_ok_spec rw1 cs off p hWF hpass hnn
  rw [heval] at hconv
  have hinj : rw2' = rw2 ∧ p'' = p' := by
    constructor
    · have := congrArg Prod.fst hconv
      simp at this
      exact this
    · exact congrArg Prod.snd hconv
  obtain ⟨rfl, rfl⟩ := hinj
  exact ⟨t2, hsyms, houts, h1, h2, h3, h4, h5, h6⟩

theorem forall₂_mem_right {α β : Type} {R : α → β → Prop} :
    ∀ {l₁ : List α} {l₂ : List β}, List.Forall₂ R l₁ l₂ →
      ∀ b ∈ l₂, ∃ a, R a b := by
  intro l₁ l₂ h
  induction h with
  | nil => simp
  | cons hab _ ih =>
    intro b hb
    rcases List.mem_cons.mp hb with rfl | hb'
    · exact ⟨_, hab⟩
    · exact ih b hb'

/-! Concrete inputs used by witnesses and counterexamples. -/

/-- A request whose RW2 symbol list is already populated. -/
def c2Req : WriteRequest :=
  ⟨[], [], 0, false, false, false, Buf.ofList ["x"], Buf.nil⟩

/-- A request with a single nil metadata entry. -/
def c9BadReq : WriteRequest :=
  ⟨[], [none], 0, false, false, false, Buf.nil, Buf.nil⟩

/-- A request with a single non-nil metadata entry. -/
def c9GoodReq : WriteRequest :=
  ⟨[], [some ⟨1, "foo", "some help", "seconds"⟩], 0, false, false, false,
   Buf.nil, Buf.nil⟩

/-- A pool state holding one labels-refs buffer of capacity 4. -/
def c7Pool : Pools := ⟨[⟨List.replicate 4 0, 0⟩], [], []⟩

/-- A three-label series' label list, needing six references. -/
def c7Labels : List LabelAdapter := [⟨"a", "1"⟩, ⟨"b", "2"⟩, ⟨"c", "3"⟩]

/-- A labels-refs buffer over the pool's retention ceiling holding a live
nonzero element. -/
def c6BigBuf : Buf Nat := ⟨7 :: List.replicate 200 0, 1⟩

/-! Claim theorems. -/

/-- C5: `FromExemplarsToExemplarsRW2` returns nil exactly for nil input, a
present empty list for a present zero-length input, and otherwise one
converted exemplar per input exemplar in order, each with a reference list of
length twice its label count and the value and timestamp carried through
unchanged. -/
theorem C5_exemplar_absence_preservation :
    ∀ (t : SymbolsTable),
      FromExemplarsToExemplarsRW2 none t = (none, t) ∧
      FromExemplarsToExemplarsRW2 (some []) t = (some [], t) ∧
      ∀ exs : List Exemplar, ∃ outs t',
        FromExemplarsToExemplarsRW2 (some exs) t = (some outs, t') ∧
        List.Forall₂ (fun ex out => out.Value = ex.Value ∧
          out.Timestamp = ex.TimestampMs ∧
          out.LabelsRefs.length = ex.Labels.length * 2) exs outs := by
  intro t
  refine ⟨rfl, rfl, ?_⟩
  intro exs
  obtain ⟨_, hAll⟩ := exemplarsLoop_spec exs t
  exact ⟨(exemplarsLoop exs t).1, (exemplarsLoop exs t).2, rfl,
    List.Forall₂.imp (fun a b hab => ⟨hab.1, hab.2.1, hab.2.2.1⟩) hAll⟩

/-- C7 counterexample: with a pooled buffer of capacity 4 and a series of
three label pairs (six references required), the conversion keeps the
insufficient pooled buffer instead of replacing it with one of the required
capacity, so the series does begin appending into a buffer smaller than its
full reference count. -/
theorem C7_counterexample :
    (acquireSeriesRefs c7Labels c7Pool).1.cap
        < c7Labels.length * stringsPerLabel ∧
    (acquireSeriesRefs c7Labels c7Pool).1.cap = 4 := by decide

/-- C7 (amended): the pooled reference buffer is replaced before appending
only when its capacity is below `stringsPerLabel` (2, one pair's worth); the
replacement is freshly sized to exactly the series' full reference count;
otherwise the pooled buffer is used as-is, regardless of the series' label
count. -/
theorem C7_refs_acquisition (labels : List LabelAdapter) (p : Pools) :
    ((labelsRefsSliceFromPool p).1.cap < stringsPerLabel ∧
      (acquireSeriesRefs labels p).1
        = Buf.make 0 (labels.length * stringsPerLabel) ∧
      (acquireSeriesRefs labels p).1.cap = labels.length * stringsPerLabel) ∨
    (stringsPerLabel ≤ (labelsRefsSliceFromPool p).1.cap ∧
      (acquireSeriesRefs labels p).1 = (labelsRefsSliceFromPool p).1) := by
  by_cases hc : (labelsRefsSliceFromPool p).1.cap < stringsPerLabel
  · exact Or.inl ⟨hc, by simp [acquireSeriesRefs, if_pos hc],
      by simp [acquireSeriesRefs, if_pos hc, Buf.cap_make]⟩
  · exact Or.inr ⟨Nat.le_of_not_lt hc, by simp [acquireSeriesRefs, if_neg hc]⟩

/-- C2: the conversion returns the already-converted error exactly when the
non-nil input already has a non-empty RW2 symbol list or series slice; on the
error path no batch is built and the pools are left untouched; a nil input
yields a nil output with no error. -/
theorem C2_already_converted (rw1? : Option WriteRequest) (cs : List String)
    (off : Nat) (p : Pools) :
    ((FromWriteRequestToRW2Request rw1? cs off p).1 = ConvResult.errAlreadyRW2 ↔
      ∃ rw1, rw1? = some rw1 ∧
        (0 < rw1.SymbolsRW2.len ∨ 0 < rw1.TimeseriesRW2.len)) ∧
    ((FromWriteRequestToRW2Request rw1? cs off p).1 = ConvResult.errAlreadyRW2 →
      (FromWriteRequestToRW2Request rw1? cs off p).2 = p) ∧
    FromWriteRequestToRW2Request none cs off p = (ConvResult.ok none, p) := by
  cases rw1? with
  | none =>
    refine ⟨?_, ?_, rfl⟩
    · constructor
      · intro h
        exact absurd h (by simp [FromWriteRequestToRW2Request])
      · rintro ⟨rw1, heq, _⟩
        exact absurd heq (by simp)
    · intro h
      exact absurd h (by simp [FromWriteRequestToRW2Request])
  | some rw1 =>
    by_cases hcond : 0 < rw1.SymbolsRW2.len ∨ 0 < rw1.TimeseriesRW2.len
    · rw [conv_eval_err rw1 cs off p hcond]
      exact ⟨⟨fun _ => ⟨rw1, rfl, hcond⟩, fun _ => rfl⟩, fun _ => rfl, rfl⟩
    · have hne : (FromWriteRequestToRW2Request (some rw1) cs off p).1
          ≠ ConvResult.errAlreadyRW2 := by
        rcases hm : metadataLoop rw1.Metadata
            (seriesLoop rw1.Timeseries
              (if (timeSeriesRW2SliceFromPool p).1.cap
                  < rw1.Timeseries.length + rw1.Metadata.length then
                Buf.make TimeSeriesRW2.zero
                  (rw1.Timeseries.length + rw1.Metadata.length)
              else (timeSeriesRW2SliceFromPool p).1)
              (SymbolsTable.empty.configureCommonSymbols off cs)
              (timeSeriesRW2SliceFromPool p).2).1
            (seriesLoop rw1.Timeseries
              (if (timeSeriesRW2SliceFromPool p).1.cap
                  < rw1.Timeseries.length + rw1.Metadata.length then
                Buf.make TimeSeriesRW2.zero
                  (rw1.Timeseries.length + rw1.Metadata.length)
              else (timeSeriesRW2SliceFromPool p).1)
              (SymbolsTable.empty.configureCommonSymbols off cs)
              (timeSeriesRW2SliceFromPool p).2).2.1 with _ | bt
        · rw [conv_eval_panic rw1 cs off p hcond hm]
          simp
        · have hm2 : metadataLoop rw1.Metadata
              (seriesLoop rw1.Timeseries
                (if (timeSeriesRW2SliceFromPool p).1.cap
                    < rw1.Timeseries.length + rw1.Metadata.length then
                  Buf.make TimeSeriesRW2.zero
                    (rw1.Timeseries.length + rw1.Metadata.length)
                else (timeSeriesRW2SliceFromPool p).1)
                (SymbolsTable.empty.configureCommonSymbols off cs)
                (timeSeriesRW2SliceFromPool p).2).1
              (seriesLoop rw1.Timeseries
                (if (timeSeriesRW2SliceFromPool p).1.cap
                    < rw1.Timeseries.length + rw1.Metadata.length then
                  Buf.make TimeSeriesRW2.zero
                    (rw1.Timeseries.length + rw1.Metadata.length)
                else (timeSeriesRW2SliceFromPool p).1)
                (SymbolsTable.empty.configureCommonSymbols off cs)
                (timeSeriesRW2SliceFromPool p).2).2.1 = some (bt.1, bt.2) := by
            rw [hm]
          rw [conv_eval_ok rw1 cs off p bt.1 bt.2 hcond hm2]
          simp
      refine ⟨⟨fun h => absurd h hne, ?_⟩, fun h => absurd h hne, rfl⟩
      rintro ⟨rw1', heq, hc⟩
      have : rw1 = rw1' := by injection heq
      subst this
      exact absurd hc hcond

/-- C2 witness: a concrete already-converted request is rejected with the
pools left untouched. -/
theorem C2_witness :
    (FromWriteRequestToRW2Request (some c2Req) [] 0 Pools.empty).1
        = ConvResult.errAlreadyRW2 ∧
    (FromWriteRequestToRW2Request (some c2Req) [] 0 Pools.empty).2
        = Pools.empty :=
  ⟨(C2_already_converted (some c2Req) [] 0 Pools.empty).1.mpr
      ⟨c2Req, rfl, by decide⟩,
   (C2_already_converted (some c2Req) [] 0 Pools.empty).2.1 (by decide)⟩

/-- C9: the conversion never reaches the nil-metadata fault when every
metadata entry is non-nil; the helper `FromMetricMetadataToMetadataRW2` maps
a nil pointer safely to the zero block; and a nil metadata entry does fault. -/
theorem C9_nil_metadata_precondition :
    (∀ (rw1 : WriteRequest) (cs : List String) (off : Nat) (p : Pools),
      (∀ m ∈ rw1.Metadata, m ≠ none) →
      (FromWriteRequestToRW2Request (some rw1) cs off p).1
        ≠ ConvResult.panicNilMetadata) ∧
    (∀ t : SymbolsTable,
      FromMetricMetadataToMetadataRW2 none t = (MetadataRW2.zero, t)) ∧
    (FromWriteRequestToRW2Request (some c9BadReq) [] 0 Pools.empty).1
      = ConvResult.panicNilMetadata := by
  refine ⟨?_, fun t => rfl, by decide⟩
  intro rw1 cs off p hnn
  by_cases hcond : 0 < rw1.SymbolsRW2.len ∨ 0 < rw1.TimeseriesRW2.len
  · rw [conv_eval_err rw1 cs off p hcond]
    simp
  · obtain ⟨buf', t', hml, _⟩ := metadataLoop_spec rw1.Metadata
      (seriesLoop rw1.Timeseries
        (if (timeSeriesRW2SliceFromPool p).1.cap
            < rw1.Timeseries.length + rw1.Metadata.length then
          Buf.make TimeSeriesRW2.zero
            (rw1.Timeseries.length + rw1.Metadata.length)
        else (timeSeriesRW2SliceFromPool p).1)
        (SymbolsTable.empty.configureCommonSymbols off cs)
        (timeSeriesRW2SliceFromPool p).2).1
      (seriesLoop rw1.Timeseries
        (if (timeSeriesRW2SliceFromPool p).1.cap
            < rw1.Timeseries.length + rw1.Metadata.length then
          Buf.make TimeSeriesRW2.zero
            (rw1.Timeseries.length + rw1.Metadata.length)
        else (timeSeriesRW2SliceFromPool p).1)
        (SymbolsTable.empty.configureCommonSymbols off cs)
        (timeSeriesRW2SliceFromPool p).2).2.1 hnn
    rw [conv_eval_ok rw1 cs off p buf' t' hcond hml]
    simp

/-- C9 witness: a concrete request with a non-nil metadata entry converts
without reaching the fault. -/
theorem C9_witness :
    (FromWriteRequestToRW2Request (some c9GoodReq) [] 0 Pools.empty).1
      ≠ ConvResult.panicNilMetadata :=
  C9_nil_metadata_precondition.1 c9GoodReq [] 0 Pools.empty (by decide)

/-! Pool-release lemmas. -/

theorem zeroFirst_get (z : α) :
    ∀ (n : Nat) (l : List α) (i : Nat), i < n → i < l.length →
      (zeroFirst z n l)[i]? = some z
  | 0, _, i => by
    intro h _
    omega
  | n + 1, [], i => by
    intro _ h
    simp at h
  | n + 1, x :: xs, 0 => by
    intro _ _
    simp [zeroFirst]
  | n + 1, x :: xs, i + 1 => by
    intro h1 h2
    simpa [zeroFirst] using
      zeroFirst_get z n xs i (by omega) (by simpa using h2)

theorem mem_reuseLabelsRefsSlice_of_mem (b : Buf Nat) (lp : List (Buf Nat))
    {x : Buf Nat} (hx : x ∈ lp) : x ∈ (reuseLabelsRefsSlice b lp).2 := by
  by_cases h0 : b.cap = 0
  · simpa [reuseLabelsRefsSlice, h0] using hx
  by_cases h1 : maxPreallocatedLabelsRefs < b.cap
  · simpa [reuseLabelsRefsSlice, h0, h1] using hx
  · simp only [reuseLabelsRefsSlice, if_neg h0, if_neg h1]
    exact List.mem_cons_of_mem _ hx

theorem self_mem_reuseLabelsRefsSlice (b : Buf Nat) (lp : List (Buf Nat))
    (h1 : 0 < b.cap) (h2 : b.cap ≤ maxPreallocatedLabelsRefs) :
    (⟨(b.cleared 0).store, 0⟩ : Buf Nat) ∈ (reuseLabelsRefsSlice b lp).2 := by
  have h0 : ¬ b.cap = 0 := by omega
  have h3 : ¬ maxPreallocatedLabelsRefs < b.cap := by omega
  simp only [reuseLabelsRefsSlice, if_neg h0, if_neg h3]
  exact List.mem_cons_self _ _

theorem foldl_release_mem_mono :
    ∀ (l : List TimeSeriesRW2) (lp : List (Buf Nat)) {x : Buf Nat}, x ∈ lp →
      x ∈ l.foldl (fun acc ts => (reuseLabelsRefsSlice ts.LabelsRefs acc).2) lp
  | [], _, _, hx => hx
  | ts :: rest, lp, _, hx =>
    foldl_release_mem_mono rest _ (mem_reuseLabelsRefsSlice_of_mem _ _ hx)

theorem foldl_release_mem (l : List TimeSeriesRW2) (lp : List (Buf Nat)) :
    ∀ ts ∈ l, 0 < ts.LabelsRefs.cap →
      ts.LabelsRefs.cap ≤ maxPreallocatedLabelsRefs →
      (⟨(ts.LabelsRefs.cleared 0).store, 0⟩ : Buf Nat)
        ∈ l.foldl (fun acc ts => (reuseLabelsRefsSlice ts.LabelsRefs acc).2) lp := by
  induction l generalizing lp with
  | nil => simp
  | cons hd rest ih =>
    intro ts hts h1 h2
    rcases List.mem_cons.mp hts with rfl | hts'
    · exact foldl_release_mem_mono rest _
        (self_mem_reuseLabelsRefsSlice _ _ h1 h2)
    · exact ih _ ts hts' h1 h2

set_option maxRecDepth 10000 in
/-- C6 counterexample: a labels-refs buffer over the retention ceiling with a
live nonzero element is discarded without clearing — its live element still
reads 7 after release, so release does not clear every live element of every
buffer. -/
theorem C6_counterexample :
    maxPreallocatedLabelsRefs < c6BigBuf.cap ∧
    0 < c6BigBuf.len ∧
    (reuseLabelsRefsSlice c6BigBuf []).1.live = [7] ∧
    ((reuseLabelsRefsSlice c6BigBuf []).1.live.all (fun r => r == 0)) = false ∧
    (reuseLabelsRefsSlice c6BigBuf []).2 = [] := by decide

/-- C6 (amended): release clears every live element of the buffers it
retains, and a buffer is returned to the pool exactly when its capacity is
non-zero and at most the pool's ceiling (200 for labels-refs buffers, 10000
for series buffers); zero-capacity or over-capacity buffers are discarded
unchanged, without clearing, and leave the pool contents untouched. -/
theorem C6_release_retention (b : Buf Nat) (bs : Buf TimeSeriesRW2)
    (lp : List (Buf Nat)) (p : Pools) :
    ((b.cap = 0 ∨ maxPreallocatedLabelsRefs < b.cap) →
      reuseLabelsRefsSlice b lp = (b, lp)) ∧
    (0 < b.cap → b.cap ≤ maxPreallocatedLabelsRefs →
      (reuseLabelsRefsSlice b lp).2 = ⟨(b.cleared 0).store, 0⟩ :: lp ∧
      (reuseLabelsRefsSlice b lp).1 = b.cleared 0 ∧
      ∀ i, i < b.len → i < b.cap → (b.cleared 0).store[i]? = some 0) ∧
    ((bs.cap = 0 ∨ maxPreallocatedTimeseriesRW2 < bs.cap) →
      reuseTimeSeriesRW2Slice bs p = (bs, p)) ∧
    (0 < bs.cap → bs.cap ≤ maxPreallocatedTimeseriesRW2 →
      (reuseTimeSeriesRW2Slice bs p).2.timeseriesRW2
          = ⟨(bs.cleared TimeSeriesRW2.zero).store, 0⟩ :: p.timeseriesRW2 ∧
      (reuseTimeSeriesRW2Slice bs p).1 = bs.cleared TimeSeriesRW2.zero ∧
      ∀ i, i < bs.len → i < bs.cap →
        (bs.cleared TimeSeriesRW2.zero).store[i]? = some TimeSeriesRW2.zero) := by
  refine ⟨?_, ?_, ?_, ?_⟩
  · rintro (h0 | hmax)
    · simp [reuseLabelsRefsSlice, h0]
    · have h0 : ¬ b.cap = 0 := by omega
      simp [reuseLabelsRefsSlice, h0, hmax]
  · intro h1 h2
    have h0 : ¬ b.cap = 0 := by omega
    have h3 : ¬ maxPreallocatedLabelsRefs < b.cap := by omega
    refine ⟨by simp [reuseLabelsRefsSlice, h0, h3], by simp [reuseLabelsRefsSlice, h0, h3], ?_⟩
    intro i hi hic
    exact zeroFirst_get 0 b.len b.store i hi hic
  · rintro (h0 | hmax)
    · simp [reuseTimeSeriesRW2Slice, h0]
    · have h0 : ¬ bs.cap = 0 := by omega
      simp [reuseTimeSeriesRW2Slice, h0, hmax]
  · intro h1 h2
    have h0 : ¬ bs.cap = 0 := by omega
    have h3 : ¬ maxPreallocatedTimeseriesRW2 < bs.cap := by omega
    refine ⟨by simp [reuseTimeSeriesRW2Slice, h0, h3],
      by simp [reuseTimeSeriesRW2Slice, h0, h3], ?_⟩
    intro i hi hic
    exact zeroFirst_get TimeSeriesRW2.zero bs.len bs.store i hi hic

/-- A small labels-refs buffer within the retention ceiling. -/
def c6SmallBuf : Buf Nat := ⟨[5, 6], 2⟩

/-- A small series buffer within the retention ceiling whose element owns a
labels-refs buffer. -/
def c10Series : TimeSeriesRW2 := ⟨⟨[3], 1⟩, [], [], none, MetadataRW2.zero, 0⟩

def c10Buf : Buf TimeSeriesRW2 := ⟨[c10Series], 1⟩

/-- C6 witness: concrete in-bounds buffers are cleared and pooled. -/
theorem C6_witness :
    ((reuseLabelsRefsSlice c6SmallBuf []).2
        = [⟨(c6SmallBuf.cleared 0).store, 0⟩] ∧
      (reuseLabelsRefsSlice c6SmallBuf []).1 = c6SmallBuf.cleared 0 ∧
      ∀ i, i < c6SmallBuf.len → i < c6SmallBuf.cap →
        (c6SmallBuf.cleared 0).store[i]? = some 0) ∧
    reuseTimeSeriesRW2Slice Buf.nil Pools.empty = (Buf.nil, Pools.empty) :=
  ⟨(C6_release_retention c6SmallBuf Buf.nil [] Pools.empty).2.1
      (by decide) (by decide),
   (C6_release_retention c6SmallBuf Buf.nil [] Pools.empty).2.2.1
      (Or.inl (by decide))⟩

/-- C10: `ReuseRW2` releases the symbol slice and then the series slice; and
releasing a retained series buffer offers each live element's `LabelsRefs`
buffer back to the labels-refs pool (subject to that pool's zero-capacity and
ceiling rules), overwrites each live element with the zero value, and pools
the series buffer re-sliced to length zero. -/
theorem C10_nested_release (req : WriteRequest) (p : Pools)
    (bs : Buf TimeSeriesRW2) (p' : Pools) :
    (ReuseRW2 req p =
      (reuseTimeSeriesRW2Slice req.TimeseriesRW2
        { p with symbols := (reuseSymbolsSlice req.SymbolsRW2 p.symbols).2 }).2) ∧
    (0 < bs.cap → bs.cap ≤ maxPreallocatedTimeseriesRW2 →
      ((reuseTimeSeriesRW2Slice bs p').2.timeseriesRW2
          = ⟨(bs.cleared TimeSeriesRW2.zero).store, 0⟩ :: p'.timeseriesRW2) ∧
      (∀ i, i < bs.len → i < bs.cap →
        (bs.cleared TimeSeriesRW2.zero).store[i]? = some TimeSeriesRW2.zero) ∧
      ∀ ts ∈ bs.live, 0 < ts.LabelsRefs.cap →
        ts.LabelsRefs.cap ≤ maxPreallocatedLabelsRefs →
        (⟨(ts.LabelsRefs.cleared 0).store, 0⟩ : Buf Nat)
          ∈ (reuseTimeSeriesRW2Slice bs p').2.labelsRefs) := by
  refine ⟨rfl, ?_⟩
  intro h1 h2
  have h0 : ¬ bs.cap = 0 := by omega
  have h3 : ¬ maxPreallocatedTimeseriesRW2 < bs.cap := by omega
  refine ⟨by simp [reuseTimeSeriesRW2Slice, h0, h3], ?_, ?_⟩
  · intro i hi hic
    exact zeroFirst_get TimeSeriesRW2.zero bs.len bs.store i hi hic
  · intro ts hts hc1 hc2
    have hpool : (reuseTimeSeriesRW2Slice bs p').2.labelsRefs
        = bs.live.foldl
            (fun acc ts => (reuseLabelsRefsSlice ts.LabelsRefs acc).2)
            p'.labelsRefs := by
      simp [reuseTimeSeriesRW2Slice, h0, h3]
    rw [hpool]
    exact foldl_release_mem bs.live p'.labelsRefs ts hts hc1 hc2

/-- C10 witness: releasing a concrete one-element series buffer pools the
cleared series buffer and the element's cleared labels-refs buffer. -/
theorem C10_witness :
    ((reuseTimeSeriesRW2Slice c10Buf Pools.empty).2.timeseriesRW2
        = [⟨(c10Buf.cleared TimeSeriesRW2.zero).store, 0⟩]) ∧
    (⟨(c10Series.LabelsRefs.cleared 0).store, 0⟩ : Buf Nat)
      ∈ (reuseTimeSeriesRW2Slice c10Buf Pools.empty).2.labelsRefs :=
  ⟨((C10_nested_release c2Req Pools.empty c10Buf Pools.empty).2
      (by decide) (by decide)).1,
   ((C10_nested_release c2Req Pools.empty c10Buf Pools.empty).2
      (by decide) (by decide)).2.2 c10Series (by decide) (by decide) (by decide)⟩

/-! The round-trip, synthesis, and reference-validity claims about whole
conversions. -/

/-- All symbol references carried by one output series: its label references,
its exemplars' label references, and — when the metadata block is populated —
the help and unit references.  The zero-valued metadata block of a
non-synthetic series is the empty block of the data model and carries no
references. -/
def tsAllRefs (ts : TimeSeriesRW2) : List Nat :=
  ts.LabelsRefs.live ++
  ((match ts.Exemplars with
    | none => []
    | some l => (l.map (fun e => e.LabelsRefs)).flatten) ++
   (if ts.Metadata = MetadataRW2.zero then []
    else [ts.Metadata.HelpRef, ts.Metadata.UnitRef]))

/-- C1: for every successful conversion and every input series, the
converted series' reference sequence has twice as many entries as the
original label pairs and dereferencing it pairwise through the output symbol
list reproduces the original label pairs in order. -/
theorem C1_label_roundtrip (rw1 : WriteRequest) (cs : List String) (off : Nat)
    (p : Pools) (rw2 : WriteRequest) (p' : Pools) (hWF : PoolsWF p)
    (hconv : FromWriteRequestToRW2Request (some rw1) cs off p
      = (ConvResult.ok (some rw2), p')) :
    ∀ i (hi : i < rw1.Timeseries.length),
      ∃ out, rw2.TimeseriesRW2.live[i]? = some out ∧
        out.LabelsRefs.live.length
          = 2 * (rw1.Timeseries.get ⟨i, hi⟩).Labels.length ∧
        derefPairs rw2.SymbolsRW2.live out.LabelsRefs.live
          = some (rw1.Timeseries.get ⟨i, hi⟩).Labels := by
  obtain ⟨t2, hsyms, ⟨routs, souts, hTlive, hrAll, hsAll⟩, _⟩ :=
    conv_ok_of_eq rw1 cs off p rw2 p' hWF hconv
  intro i hi
  have hlen := hrAll.length_eq
  have hi2 : i < routs.length := hlen ▸ hi
  have hok := hrAll.get hi hi2
  refine ⟨routs.get ⟨i, hi2⟩, ?_, ?_, ?_⟩
  · rw [hTlive, List.getElem?_append_left hi2, List.getElem?_eq_getElem hi2]
    rfl
  · have := hok.1
    omega
  · rw [hsyms]
    exact hok.2.1 t2 (extends_refl t2)

/-- C3: a successful conversion emits exactly one synthetic series per
metadata entry, after all real series and in metadata order; each synthetic
series carries exactly the reserved name label mapped to the family name, the
converted metadata block, and no samples, histograms, exemplars or created
timestamp, while every real series carries the zero metadata block. -/
theorem C3_metadata_synthesis (rw1 : WriteRequest) (cs : List String)
    (off : Nat) (p : Pools) (rw2 : WriteRequest) (p' : Pools)
    (hWF : PoolsWF p)
    (hconv : FromWriteRequestToRW2Request (some rw1) cs off p
      = (ConvResult.ok (some rw2), p')) :
    rw2.TimeseriesRW2.live.length
      = rw1.Timeseries.length + rw1.Metadata.length ∧
    (∀ i (hi : i < rw1.Timeseries.length),
      ∃ out, rw2.TimeseriesRW2.live[i]? = some out ∧
        out.Metadata = MetadataRW2.zero) ∧
    (∀ j (hj : j < rw1.Metadata.length),
      ∃ out meta, rw1.Metadata.get ⟨j, hj⟩ = some meta ∧
        rw2.TimeseriesRW2.live[rw1.Timeseries.length + j]? = some out ∧
        out.LabelsRefs.live.length = 2 ∧
        derefPairs rw2.SymbolsRW2.live out.LabelsRefs.live
          = some [⟨"__name__", meta.MetricFamilyName⟩] ∧
        out.Samples = [] ∧ out.Histograms = [] ∧ out.Exemplars = none ∧
        out.CreatedTimestamp = 0 ∧
        out.Metadata.MetricType = meta.MetricType ∧
        rw2.SymbolsRW2.live[out.Metadata.HelpRef]? = some meta.Help ∧
        rw2.SymbolsRW2.live[out.Metadata.UnitRef]? = some meta.Unit) := by
  obtain ⟨t2, hsyms, ⟨routs, souts, hTlive, hrAll, hsAll⟩, _⟩ :=
    conv_ok_of_eq rw1 cs off p rw2 p' hWF hconv
  have hrlen := hrAll.length_eq
  have hslen := hsAll.length_eq
  refine ⟨?_, ?_, ?_⟩
  · rw [hTlive, List.length_append, hrlen, hslen]
  · intro i hi
    have hi2 : i < routs.length := hrlen ▸ hi
    have hok := hrAll.get hi hi2
    refine ⟨routs.get ⟨i, hi2⟩, ?_, hok.2.2.2.2.2.1⟩
    rw [hTlive, List.getElem?_append_left hi2, List.getElem?_eq_getElem hi2]
    rfl
  · intro j hj
    have hj2 : j < souts.length := hslen ▸ hj
    have hok := hsAll.get hj hj2
    obtain ⟨meta, hm, hlen2, hderef, hsamp, hhist, hexnone, hts0, htype,
      hrefs⟩ := hok
    refine ⟨souts.get ⟨j, hj2⟩, meta, hm, ?_, hlen2, ?_, hsamp, hhist,
      hexnone, hts0, htype, ?_, ?_⟩
    · rw [hTlive]
      have hidx : (routs ++ souts)[routs.length + j]? = souts[j]? :=
        getElem?_append_plus routs souts j
      rw [hrlen, hidx, List.getElem?_eq_getElem hj2]
      rfl
    · rw [hsyms]
      exact hderef t2 (extends_refl t2)
    · rw [hsyms]
      exact (hrefs t2 (extends_refl t2)).1
    · rw [hsyms]
      exact (hrefs t2 (extends_refl t2)).2

/-- C4: in a successful conversion every symbol reference appearing in the
output — series label references, exemplar label references, and the help and
unit references of populated metadata blocks — is a valid index into the
output symbol list; and symbolizing the same string again at any later state
of the same conversion's table yields the same reference. -/
theorem C4_reference_validity (rw1 : WriteRequest) (cs : List String)
    (off : Nat) (p : Pools) (rw2 : WriteRequest) (p' : Pools)
    (hWF : PoolsWF p)
    (hconv : FromWriteRequestToRW2Request (some rw1) cs off p
      = (ConvResult.ok (some rw2), p')) :
    (∀ out ∈ rw2.TimeseriesRW2.live, ∀ r ∈ tsAllRefs out,
      r < rw2.SymbolsRW2.live.length) ∧
    (∀ (t : SymbolsTable) (s : String) (t₂ : SymbolsTable),
      Extends (t.Symbolize s).2 t₂ →
      (t₂.Symbolize s).1 = (t.Symbolize s).1) := by
  obtain ⟨t2, hsyms, ⟨routs, souts, hTlive, hrAll, hsAll⟩, _⟩ :=
    conv_ok_of_eq rw1 cs off p rw2 p' hWF hconv
  refine ⟨?_, fun t s t₂ h => symbolize_stable t s t₂ h⟩
  intro out hout r hr
  rw [hsyms]
  rw [hTlive] at hout
  unfold tsAllRefs at hr
  rcases List.mem_append.mp hout with hout | hout
  · obtain ⟨ts, hok⟩ := forall₂_mem_right hrAll out hout
    rcases List.mem_append.mp hr with hrA | hr
    · exact derefPairs_mem_lt (hok.2.1 t2 (extends_refl t2)) r hrA
    rcases List.mem_append.mp hr with hrB | hrC
    · have hexs := hok.2.2.2.2.1
      cases hoe : out.Exemplars with
      | none =>
        rw [hoe] at hrB
        simp at hrB
      | some outs' =>
        rw [hoe] at hrB hexs
        cases hie : ts.Exemplars with
        | none =>
          rw [hie] at hexs
          exact absurd hexs (by simp [ExsOK])
        | some exs =>
          rw [hie] at hexs
          simp only [List.mem_flatten, List.mem_map] at hrB
          obtain ⟨l, ⟨e, he, rfl⟩, hrl⟩ := hrB
          obtain ⟨ex, hexok⟩ := forall₂_mem_right hexs e he
          exact derefPairs_mem_lt (hexok.2.2.2 t2 (extends_refl t2)) r hrl
    · rw [hok.2.2.2.2.2.1] at hrC
      simp at hrC
  · obtain ⟨m?, hok⟩ := forall₂_mem_right hsAll out hout
    obtain ⟨meta, hm, hlen2, hderef, hsamp, hhist, hexnone, hts0, htype,
      hrefs⟩ := hok
    rcases List.mem_append.mp hr with hrA | hr
    · exact derefPairs_mem_lt (hderef t2 (extends_refl t2)) r hrA
    rcases List.mem_append.mp hr with hrB | hrC
    · rw [hexnone] at hrB
      simp at hrB
    · by_cases hz : out.Metadata = MetadataRW2.zero
      · rw [if_pos hz] at hrC
        simp at hrC
      · rw [if_neg hz] at hrC
        have hhu := hrefs t2 (extends_refl t2)
        rcases List.mem_cons.mp hrC with rfl | hrC2
        · exact (List.getElem?_eq_some.mp hhu.1).1
        rcases List.mem_cons.mp hrC2 with rfl | hrC3
        · exact (List.getElem?_eq_some.mp hhu.2).1
        · simp at hrC3

/-- C8: a successful conversion copies the origin tag and the three
validation-skip flags verbatim from the input; the embedding of the
conversion is a pure function of the input, reflecting that the source
performs no store to the input batch. -/
theorem C8_field_copying (rw1 : WriteRequest) (cs : List String) (off : Nat)
    (p : Pools) (rw2 : WriteRequest) (p' : Pools) (hWF : PoolsWF p)
    (hconv : FromWriteRequestToRW2Request (some rw1) cs off p
      = (ConvResult.ok (some rw2), p')) :
    rw2.Source = rw1.Source ∧
    rw2.SkipLabelValidation = rw1.SkipLabelValidation ∧
    rw2.SkipLabelCountValidation = rw1.SkipLabelCountValidation ∧
    rw2.skipUnmarshalingExemplars = rw1.skipUnmarshalingExemplars := by
  obtain ⟨t2, _, _, h1, h2, h3, h4, _, _⟩ :=
    conv_ok_of_eq rw1 cs off p rw2 p' hWF hconv
  exact ⟨h1, h2, h3, h4⟩

/-! Concrete conversions for the witnesses of C1, C3, C4, C8. -/

/-- A request with one two-label series carrying a sample, distinctive scalar
fields, and no metadata. -/
def c1Req : WriteRequest :=
  ⟨[⟨[⟨"__name__", "foo"⟩, ⟨"job", "a"⟩], [⟨1, 42⟩], none, [], 7⟩],
   [], 3, true, false, true, Buf.nil, Buf.nil⟩

def fallbackReq : WriteRequest :=
  ⟨[], [], 0, false, false, false, Buf.nil, Buf.nil⟩

/-- The batch produced by converting `c1Req` with empty pools. -/
def c1Out : WriteRequest :=
  match (FromWriteRequestToRW2Request (some c1Req) [] 0 Pools.empty).1 with
  | ConvResult.ok (some rw2) => rw2
  | _ => fallbackReq

/-- A request with one series named foo and one metadata entry for family
foo. -/
def c3Req : WriteRequest :=
  ⟨[⟨[⟨"__name__", "foo"⟩], [], none, [], 0⟩],
   [some ⟨2, "foo", "foo help", "bytes"⟩], 0, false, false, false,
   Buf.nil, Buf.nil⟩

/-- The batch produced by converting `c3Req` with empty pools. -/
def c3Out : WriteRequest :=
  match (FromWriteRequestToRW2Request (some c3Req) [] 0 Pools.empty).1 with
  | ConvResult.ok (some rw2) => rw2
  | _ => fallbackReq

/-- A request exercising series labels, exemplar labels, and metadata
references at once. -/
def c4Req : WriteRequest :=
  ⟨[⟨[⟨"__name__", "foo"⟩], [], some [⟨[⟨"trace", "t1"⟩], 9, 4⟩], [], 0⟩],
   [some ⟨2, "foo", "h", "u"⟩], 0, false, false, false, Buf.nil, Buf.nil⟩

/-- The batch produced by converting `c4Req` with empty pools. -/
def c4Out : WriteRequest :=
  match (FromWriteRequestToRW2Request (some c4Req) [] 0 Pools.empty).1 with
  | ConvResult.ok (some rw2) => rw2
  | _ => fallbackReq

/-- The first output series of the `c4Req` conversion. -/
def c4OutTs : TimeSeriesRW2 :=
  match c4Out.TimeseriesRW2.live with
  | ts :: _ => ts
  | [] => TimeSeriesRW2.zero

/-- One concrete reference carried by that series. -/
def c4Ref : Nat := (tsAllRefs c4OutTs).headD 0

set_option maxRecDepth 10000 in
/-- C1 witness: the two-label series of `c1Req` round-trips through the
output symbol list. -/
theorem C1_witness :
    ∃ out, c1Out.TimeseriesRW2.live[0]? = some out ∧
      out.LabelsRefs.live.length = 2 * 2 ∧
      derefPairs c1Out.SymbolsRW2.live out.LabelsRefs.live
        = some [⟨"__name__", "foo"⟩, ⟨"job", "a"⟩] :=
  C1_label_roundtrip c1Req [] 0 Pools.empty c1Out Pools.empty poolsWF_empty
    rfl 0 (by decide)

set_option maxRecDepth 10000 in
/-- C3 witness: converting `c3Req` yields the real series (zero metadata) at
index 0 and the synthetic metadata series at index 1. -/
theorem C3_witness :
    c3Out.TimeseriesRW2.live.length = 1 + 1 ∧
    (∃ out, c3Out.TimeseriesRW2.live[0]? = some out ∧
      out.Metadata = MetadataRW2.zero) ∧
    (∃ out meta,
      c3Req.Metadata.get ⟨0, by decide⟩ = some meta ∧
      c3Out.TimeseriesRW2.live[1 + 0]? = some out ∧
      out.LabelsRefs.live.length = 2 ∧
      derefPairs c3Out.SymbolsRW2.live out.LabelsRefs.live
        = some [⟨"__name__", meta.MetricFamilyName⟩] ∧
      out.Samples = [] ∧ out.Histograms = [] ∧ out.Exemplars = none ∧
      out.CreatedTimestamp = 0 ∧
      out.Metadata.MetricType = meta.MetricType ∧
      c3Out.SymbolsRW2.live[out.Metadata.HelpRef]? = some meta.Help ∧
      c3Out.SymbolsRW2.live[out.Metadata.UnitRef]? = some meta.Unit) := by
  have h := C3_metadata_synthesis c3Req [] 0 Pools.empty c3Out Pools.empty
    poolsWF_empty rfl
  exact ⟨h.1, h.2.1 0 (by decide), h.2.2 0 (by decide)⟩

set_option maxRecDepth 10000 in
/-- C4 witness: a concrete reference of the `c4Req` conversion's first output
series is a valid index into the output symbol list. -/
theorem C4_witness : c4Ref < c4Out.SymbolsRW2.live.length :=
  (C4_reference_validity c4Req [] 0 Pools.empty c4Out Pools.empty
      poolsWF_empty rfl).1 c4OutTs (by decide) c4Ref (by decide)

set_option maxRecDepth 10000 in
/-- C8 witness: converting `c1Req` carries its distinctive scalar fields
through verbatim. -/
theorem C8_witness :
    c1Out.Source = 3 ∧ c1Out.SkipLabelValidation = true ∧
    c1Out.SkipLabelCountValidation = false ∧
    c1Out.skipUnmarshalingExemplars = true :=
  C8_field_copying c1Req [] 0 Pools.empty c1Out Pools.empty poolsWF_empty rfl

end MimirRW2
